import Mathlib

/-!
Verification of the ChimeraTK Control System Adapter for EPICS.

This file gives a shallow embedding of the PV mediation layer of the
adapter (shared PV supports with notification fan-out, consumer handles,
the polled-device provider, the provider registry, the bidirectional
output-record reconciliation callback, and the record-address parser) and
proves the central functional properties of these components.

Conventions of the embedding:
 * `std::vector<T>` values are an abstract type `V`; `VersionNumber` is a
   `Nat` (a totally ordered token).
 * callbacks (`std::function` objects) are identified by `Nat` ids;
   "invoking a callback" is represented by emitting an event that records
   the callback id and its arguments.
 * stateful C++ methods become pure functions from the old state to the
   new state plus their outputs; a method that throws is modelled with
   `Except` or with an explicit error outcome.
 * machine integers that can only move by plus/minus one under guards are
   `Int` (the C++ fields are `int`).
-/

/-! ### Polled-device provider: register catalogue and getDefaultType (C7)

From src/chimeraTKApp/src/DeviceAccessPVProvider.cpp, lines 55-82.
-/

/-- Fundamental type of a register as described by the ChimeraTK
`RegisterInfo::FundamentalType` enumeration used in the switch statement of
`DeviceAccessPVProvider::getDefaultType`. -/
inductive FundamentalType where
  | numeric
  | string
  | boolean
  | nodata
  | undefined
deriving DecidableEq, Repr

/-- The data descriptor of a register in the device catalogue: the fields of
`DataDescriptor` inspected by `getDefaultType` (`fundamentalType()`,
`isIntegral()`, `isSigned()`). -/
structure DataDescriptor where
  fundamentalType : FundamentalType
  isIntegral : Bool
  isSigned : Bool
deriving DecidableEq, Repr

/-- The element types that `getDefaultType` can return: `typeid(std::int32_t)`,
`typeid(std::uint32_t)`, `typeid(double)` and the unknown marker
`typeid(nullptr_t)`. -/
inductive DefaultType where
  | int32
  | uint32
  | float64
  | unknown
deriving DecidableEq, Repr

/-- The device's register catalogue (`Device::getRegisterCatalogue`): a finite
association of register names to data descriptors.  `lookup` models the
`hasRegister` test followed by `getRegister`. -/
def RegisterCatalogue := List (String × DataDescriptor)

/-- `DeviceAccessPVProvider::getDefaultType`
(src/chimeraTKApp/src/DeviceAccessPVProvider.cpp lines 55-82): throws
`std::invalid_argument` when the register is not in the catalogue, otherwise
switches on the fundamental type of the register's data descriptor. -/
def getDefaultType (cat : RegisterCatalogue) (name : String) :
    Except Unit DefaultType :=
  match List.lookup name cat with
  | none => .error ()
  | some d =>
    .ok (match d.fundamentalType with
      | .numeric =>
        if d.isIntegral then
          if d.isSigned then .int32 else .uint32
        else .float64
      | .boolean => .uint32
      | _ => .unknown)

/-! ### Provider registry (C9)

From src/chimeraTKApp/src/PVProviderRegistry.cpp.
-/

/-- The kind of provider stored in the registry: a streaming application
provider (`ControlSystemAdapterPVProvider`) or a polled device provider
(`DeviceAccessPVProvider` with its alias and I/O thread count). -/
inductive ProviderKind where
  | application
  | device (aliasName : String) (numberOfIoThreads : Nat)
deriving DecidableEq, Repr

/-- Static state of `PVProviderRegistry`: the `finalizeInitializationCalled`
flag and the name-to-provider map `pvProviders`. -/
structure RegistryState where
  finalizeInitializationCalled : Bool
  pvProviders : List (String × ProviderKind)
deriving DecidableEq, Repr

/-- The two error conditions raised by the registry operations:
`std::logic_error` after finalization and `std::invalid_argument` for a name
that is already in use. -/
inductive RegistryError where
  | alreadyFinalized
  | nameInUse
deriving DecidableEq, Repr

/-- `PVProviderRegistry::finalizeInitialization` (lines 30-51): fails if
already called; otherwise sets the flag and calls `finalizeInitialization` on
every registered provider.  The returned list records the names of the
providers iterated over.  On failure the state is returned unchanged. -/
def registryFinalize (r : RegistryState) :
    RegistryState × Option RegistryError × List String :=
  if r.finalizeInitializationCalled then
    (r, some .alreadyFinalized, [])
  else
    ({ r with finalizeInitializationCalled := true }, none,
     r.pvProviders.map (fun e => e.1))

/-- `PVProviderRegistry::registerApplication` (lines 65-81): fails with a
`std::logic_error` after finalization and with `std::invalid_argument` when
the name is in use; otherwise inserts a streaming provider.  On failure the
state is returned unchanged. -/
def registerApplication (r : RegistryState) (appName : String) :
    RegistryState × Option RegistryError :=
  if r.finalizeInitializationCalled then
    (r, some .alreadyFinalized)
  else if (List.lookup appName r.pvProviders).isSome then
    (r, some .nameInUse)
  else
    ({ r with pvProviders := (appName, .application) :: r.pvProviders }, none)

/-- `PVProviderRegistry::registerDevice` (lines 83-101): same guards as
`registerApplication`, inserting a polled device provider. -/
def registerDevice (r : RegistryState) (devName aliasName : String)
    (numberOfIoThreads : Nat) : RegistryState × Option RegistryError :=
  if r.finalizeInitializationCalled then
    (r, some .alreadyFinalized)
  else if (List.lookup devName r.pvProviders).isSome then
    (r, some .nameInUse)
  else
    ({ r with pvProviders :=
        (devName, .device aliasName numberOfIoThreads) :: r.pvProviders },
     none)

/-! ### Polled-device provider: submitIoTask, read and write (C6)

From src/chimeraTKApp/src/ChimeraTK/EPICS/DeviceAccessPVProviderImpl.h
(lines 44-53) and src/chimeraTKApp/src/ChimeraTK/EPICS/DeviceAccessPVSupport.h
(lines 216-262 and 279-321).
-/

/-- A completion-callback invocation performed by a polled-device I/O task:
either the success callback of a read (with the immediate flag, the value and
the version number), the success callback of a write, or the error callback.
The `immediate` component is the flag the C++ lambda captured and passes to
the callback. -/
inductive IoEvent (V : Type) where
  | readDone (immediate : Bool) (value : V) (version : Nat)
  | writeDone (immediate : Bool)
  | failed (immediate : Bool)
deriving DecidableEq, Repr

/-- The immediate flag carried by an I/O completion event. -/
def IoEvent.immediateFlag : IoEvent V → Bool
  | .readDone i _ _ => i
  | .writeDone i => i
  | .failed i => i

/-- `DeviceAccessPVProvider::submitIoTask` (DeviceAccessPVProviderImpl.h lines
44-53): in synchronous mode the submitting thread executes the task and the
method returns true; otherwise the task is submitted to the executor and the
method returns false.  The result is (return value, tasks executed inline,
tasks enqueued on the executor). -/
def submitIoTask (synchronous : Bool) (f : α) : Bool × List α × List α :=
  if synchronous then (true, [f], [])
  else (false, [], [f])

/-- `DeviceAccessPVSupport<T>::read` (DeviceAccessPVSupport.h lines 216-262).
The blocking `accessor.read()` is modelled by `readOk` (whether it succeeds)
and by `(v, ver)` (the value swapped out of the accessor and the accessor's
version number).  The task invokes the success or error callback with the
captured immediate flag; the method returns `immediate`.  The result is
(return value, events fired inline, events enqueued). -/
def deviceAccessRead (synchronous readOk : Bool) (v : V) (ver : Nat) :
    Bool × List (IoEvent V) × List (IoEvent V) :=
  let immediate := synchronous
  let task : IoEvent V :=
    if readOk then .readDone immediate v ver else .failed immediate
  let r := submitIoTask synchronous task
  (immediate, r.2.1, r.2.2)

/-- `DeviceAccessPVSupport<T>::write` (DeviceAccessPVSupport.h lines 279-321):
swaps the value into the accessor and submits a task performing
`accessor.write(versionNumber)`; `writeOk` models whether that write throws.
The result is (return value, events fired inline, events enqueued). -/
def deviceAccessWrite (synchronous writeOk : Bool) :
    Bool × List (IoEvent V) × List (IoEvent V) :=
  let immediate := synchronous
  let task : IoEvent V :=
    if writeOk then .writeDone immediate else .failed immediate
  let r := submitIoTask synchronous task
  (immediate, r.2.1, r.2.2)

/-! ### Bidirectional output-record reconciliation (C5)

From src/chimeraTKApp/src/ChimeraTK/EPICS/ArrayRecordDeviceSupport.h,
lines 655-698: the notification callback registered for a bidirectional
output record.
-/

/-- The fields of `ArrayRecordDeviceSupport` (output specialisation) touched
by the notification callback: the cached value and version number, the
validity flag of the version number, and the notify/write pending flags. -/
structure OutputRecordState (V : Type) where
  versionNumberValid : Bool
  versionNumber : Nat
  value : V
  notifyPending : Bool
  writePending : Bool
deriving DecidableEq, Repr

/-- The notification callback for a bidirectional output record
(ArrayRecordDeviceSupport.h lines 655-691), receiving a remote update
`(v, ver)`.  Returns the new record state and whether
`callbackRequestProcessCallback` was invoked (the record was scheduled for
processing right away; when a notify or write operation is already pending
the record is instead re-processed when that operation completes). -/
def outputRecordNotify [DecidableEq V] (st : OutputRecordState V) (v : V)
    (ver : Nat) : OutputRecordState V × Bool :=
  if !st.versionNumberValid
      || decide (ver > st.versionNumber)
      || (decide (ver = st.versionNumber) && decide (st.value ≠ v)) then
    let oldNotifyPending := st.notifyPending
    let st := { st with value := v, versionNumber := ver, notifyPending := true }
    (st, st.notifyPending && !oldNotifyPending && !st.writePending)
  else
    (st, false)

/-! ### Streaming provider: shared PV support and consumer handles (C1-C3, C10)

From src/chimeraTKApp/src/ChimeraTK/EPICS/ControlSystemAdapterSharedPVSupportImpl.h
and src/chimeraTKApp/src/ChimeraTK/EPICS/ControlSystemAdapterPVSupportImpl.h.
-/

/-- One consumer handle (`ControlSystemAdapterPVSupport<T>`) as stored in the
weak-pointer list of the shared PV support.  `alive` models whether the weak
pointer can still be upgraded; `notifyCallback` is the registered
notification callback (by id) and `notificationPending` the per-handle flag
set between callback invocation and `notifyFinished`. -/
structure PVSupportHandle where
  alive : Bool
  notifyCallback : Option Nat
  notificationPending : Bool
deriving DecidableEq, Repr

/-- The state of `ControlSystemAdapterSharedPVSupport<T>`: the cached
`(lastValue, lastVersionNumber)`, the two counters, the subscriber list, and
the two properties of the underlying `ProcessArray` that the methods inspect
(`isReadable()` and whether `AccessMode::wait_for_new_data` is set). -/
structure SharedPVState (V : Type) where
  lastValue : V
  lastVersionNumber : Nat
  notificationPendingCount : Int
  notifyCallbackCount : Int
  pvSupports : List PVSupportHandle
  readable : Bool
  waitForNewData : Bool
deriving DecidableEq, Repr

/-- The per-subscriber loop of `doNotify`
(ControlSystemAdapterSharedPVSupportImpl.h lines 238-250): for every live PV
support, take its notify callback; when one is present set the handle's
`notificationPending` flag and collect the callback, otherwise count the
handle as skipped (its pending-count contribution is removed again).
Returns (updated handles, collected callback ids, number skipped). -/
def doNotifyCollect : List PVSupportHandle →
    List PVSupportHandle × List Nat × Nat
  | [] => ([], [], 0)
  | p :: rest =>
    let r := doNotifyCollect rest
    match p.notifyCallback with
    | some cb =>
      ({ p with notificationPending := true } :: r.1, cb :: r.2.1, r.2.2)
    | none => (p :: r.1, r.2.1, r.2.2 + 1)

/-- `ControlSystemAdapterSharedPVSupport<T>::doNotify`
(ControlSystemAdapterSharedPVSupportImpl.h lines 198-267).  The value
`(v, ver)` is the content of the process array's channel and its version
number for the update being pulled.  First the value is stored into
`lastValue` / `lastVersionNumber`; if no notify callback is registered the
method returns no closure; otherwise the dead weak pointers are pruned, the
pending count is raised by the number of live handles, the loop collects the
callbacks (lowering the count again for handles without one), and the
returned closure - represented by the list of callback invocations it
performs - calls every collected callback with `(v, ver)`. -/
def doNotify (s : SharedPVState V) (v : V) (ver : Nat) :
    SharedPVState V × Option (List (Nat × V × Nat)) :=
  let s := { s with lastValue := v, lastVersionNumber := ver }
  if s.notifyCallbackCount = 0 then
    (s, none)
  else
    let live := s.pvSupports.filter (fun p => p.alive)
    let s := { s with pvSupports := live,
                      notificationPendingCount :=
                        s.notificationPendingCount + live.length }
    let r := doNotifyCollect live
    let s := { s with pvSupports := r.1,
                      notificationPendingCount :=
                        s.notificationPendingCount - r.2.2 }
    (s, some (r.2.1.map (fun cb => (cb, v, ver))))

/-- `ControlSystemAdapterSharedPVSupport<T>::readyForNextNotification`
(ControlSystemAdapterSharedPVSupportImpl.h lines 269-276). -/
def readyForNextNotification (s : SharedPVState V) : Bool :=
  s.notificationPendingCount = 0

/-- `ControlSystemAdapterSharedPVSupport<T>::doInitialNotification`
(ControlSystemAdapterSharedPVSupportImpl.h lines 278-290): captures the
current `(lastValue, lastVersionNumber)`, increments the pending count and
hands a task to `ControlSystemAdapterPVProvider::runInNotificationThread`.
The task (the single callback invocation the dispatcher thread will run) is
returned alongside the new state. -/
def doInitialNotification (s : SharedPVState V) (cb : Nat) :
    SharedPVState V × (Nat × V × Nat) :=
  ({ s with notificationPendingCount := s.notificationPendingCount + 1 },
   (cb, s.lastValue, s.lastVersionNumber))

/-- `ControlSystemAdapterSharedPVSupport<T>::notifyFinished`
(ControlSystemAdapterSharedPVSupportImpl.h lines 292-302): decrements the
pending count and wakes the notification thread when it reaches zero.  The
Bool records whether `wakeUpNotificationThread` was called. -/
def sharedNotifyFinished (s : SharedPVState V) : SharedPVState V × Bool :=
  let s := { s with notificationPendingCount :=
              s.notificationPendingCount - 1 }
  (s, decide (s.notificationPendingCount = 0))

/-- `ControlSystemAdapterPVSupport<T>::canNotify` via
`ControlSystemAdapterSharedPVSupport<T>::canNotify`
(ControlSystemAdapterSharedPVSupportImpl.h lines 62-68). -/
def sharedCanNotify (s : SharedPVState V) : Bool :=
  s.readable && s.waitForNewData

/-- `ControlSystemAdapterPVSupport<T>::notify`
(ControlSystemAdapterPVSupportImpl.h lines 88-131).  Throws a
`std::logic_error` when the PV cannot notify.  Otherwise adjusts
`notifyCallbackCount`, installs the callback, resolves a pending
notification when the callback is being cancelled, and for a newly
registered callback with no notification pending performs the initial
notification.  Returns the new handle, the new shared state and the
initial-notification task (if any) that was enqueued on the dispatcher. -/
def pvSupportNotify (h : PVSupportHandle) (s : SharedPVState V)
    (successCallback : Option Nat) :
    Except Unit (PVSupportHandle × SharedPVState V × Option (Nat × V × Nat)) :=
  if !sharedCanNotify s then .error ()
  else
    let s :=
      if h.notifyCallback.isNone && successCallback.isSome then
        { s with notifyCallbackCount := s.notifyCallbackCount + 1 }
      else if h.notifyCallback.isSome && successCallback.isNone then
        { s with notifyCallbackCount := s.notifyCallbackCount - 1 }
      else s
    let h := { h with notifyCallback := successCallback }
    let hs :=
      if successCallback.isNone && h.notificationPending then
        ({ h with notificationPending := false }, (sharedNotifyFinished s).1)
      else (h, s)
    match successCallback with
    | some cb =>
      if !hs.1.notificationPending then
        let r := doInitialNotification hs.2 cb
        .ok ({ hs.1 with notificationPending := true }, r.1, some r.2)
      else .ok (hs.1, hs.2, none)
    | none => .ok (hs.1, hs.2, none)

/-- `ControlSystemAdapterPVSupport<T>::notifyFinished`
(ControlSystemAdapterPVSupportImpl.h lines 133-144): only when the handle's
`notificationPending` flag is set does it call the shared
`notifyFinished` and clear the flag.  Returns the new handle, the new shared
state and whether the notification thread was woken up. -/
def pvSupportNotifyFinished (h : PVSupportHandle) (s : SharedPVState V) :
    PVSupportHandle × SharedPVState V × Bool :=
  if h.notificationPending then
    let r := sharedNotifyFinished s
    ({ h with notificationPending := false }, r.1, r.2)
  else (h, s, false)

/-- The outcome of `ControlSystemAdapterSharedPVSupport<T>::read`: which
callback was invoked, with its immediate flag and payload. -/
inductive ReadOutcome (V : Type) where
  | success (immediate : Bool) (value : V) (version : Nat)
  | failure (immediate : Bool)
deriving DecidableEq, Repr

/-- The immediate flag passed to the callback of a read outcome. -/
def ReadOutcome.immediateFlag : ReadOutcome V → Bool
  | .success i _ _ => i
  | .failure i => i

/-- `ControlSystemAdapterSharedPVSupport<T>::read`
(ControlSystemAdapterSharedPVSupportImpl.h lines 103-143).  When the process
variable does not have `AccessMode::wait_for_new_data`, `readLatest()` is
called: `readLatestOk` models its result and `(paValue, paVersion)` the
channel content and version it produced; `readLatest() == false` raises a
`std::logic_error` which is delivered through the error callback.  When the
flag is set the cached value is delivered without touching the stream.  The
result is (new state, callback outcome, whether the process array was
accessed, return value). -/
def sharedRead (s : SharedPVState V) (readLatestOk : Bool) (paValue : V)
    (paVersion : Nat) : SharedPVState V × ReadOutcome V × Bool × Bool :=
  if !s.waitForNewData then
    if readLatestOk then
      let s := { s with lastValue := paValue, lastVersionNumber := paVersion }
      (s, .success true s.lastValue s.lastVersionNumber, true, true)
    else
      (s, .failure true, true, true)
  else
    (s, .success true s.lastValue s.lastVersionNumber, false, true)

/-! ### Notification dispatcher trace model (C2, C4)

A small-step model of the notification thread
(src/chimeraTKApp/src/ControlSystemAdapterPVProvider.cpp, runNotificationThread)
driving one shared PV support with a single continuously subscribed consumer
handle.  Only version numbers matter for the ordering claims, so the stream is
a list of version numbers.  The model starts directly after
`ControlSystemAdapterPVSupport::notify` registered the callback:
`doInitialNotification` captured the current `lastVersionNumber`, incremented
the pending count and enqueued the task on the dispatcher task queue.
-/

/-- Dispatcher state for one shared PV support with one subscribed handle:
the shared `lastVersionNumber`, the versions still to be delivered by the
producer stream, the dispatcher task queue (initial-notification tasks,
represented by the version they will deliver), the
`notificationPendingCount`, and the versions delivered to the subscriber's
callback so far (in delivery order). -/
structure DispatchState where
  lastVer : Nat
  stream : List Nat
  tasks : List Nat
  pending : Nat
  delivered : List Nat
deriving DecidableEq, Repr

/-- The dispatcher state immediately after callback registration for a
handle: the initial-notification task carrying the current version `v0` is
queued and the pending count is 1 (doInitialNotification). -/
def dispatchInit (v0 : Nat) (stream : List Nat) : DispatchState :=
  ⟨v0, stream, [v0], 1, []⟩

/-- One step of the notification thread.
`runTask`: the dispatcher drains its task queue, running an enqueued
initial-notification task, which invokes the subscriber's callback.
`fanOut`: only when the shared support is ready for the next notification
(`notificationPendingCount == 0`, see `readyForNextNotification`) and the
task queue has been drained does the dispatcher pull the next stream update
and run `doNotify`, which stores the new version and invokes the callback,
raising the pending count to 1 (the one live handle with a callback).
`ack`: the subscriber, having received a delivery, calls `notifyFinished`,
clearing the pending count. -/
inductive DispatchStep : DispatchState → DispatchState → Prop where
  | runTask : ∀ d t ts, d.tasks = t :: ts →
      DispatchStep d { d with tasks := ts, delivered := d.delivered ++ [t] }
  | fanOut : ∀ d v vs, d.pending = 0 → d.tasks = [] → d.stream = v :: vs →
      DispatchStep d { d with lastVer := v, stream := vs, pending := 1,
                              delivered := d.delivered ++ [v] }
  | ack : ∀ d, d.pending = 1 → d.tasks = [] →
      DispatchStep d { d with pending := 0 }

/-- Reachability of dispatcher states from the post-registration state. -/
inductive DispatchReach (v0 : Nat) (stream : List Nat) : DispatchState → Prop where
  | start : DispatchReach v0 stream (dispatchInit v0 stream)
  | step : ∀ d d', DispatchReach v0 stream d → DispatchStep d d' →
      DispatchReach v0 stream d'

/-- Invariant used to show that the first delivery to a freshly registered
subscriber is the initial notification: while nothing has been delivered the
task queue still holds exactly the initial task and the pending count blocks
fan-out; once something has been delivered, the first delivered version is
`v0`. -/
def DispatchHeadInv (v0 : Nat) (d : DispatchState) : Prop :=
  (d.delivered = [] → d.tasks = [v0] ∧ d.pending = 1) ∧
  (d.tasks ≠ [] → d.delivered = []) ∧
  d.tasks.length ≤ 1 ∧
  (d.delivered ≠ [] → d.delivered.head? = some v0)

/-- Invariant used to show strict monotonicity of the delivered versions:
the delivered list is a strictly increasing chain whose last element is at
most `lastVer`, the remaining stream is strictly increasing above `lastVer`,
and any queued task carries exactly `lastVer` and can only exist before the
first delivery. -/
def DispatchChainInv (d : DispatchState) : Prop :=
  List.Chain' (· < ·) d.delivered ∧
  (∀ x, d.delivered.getLast? = some x → x ≤ d.lastVer) ∧
  List.Chain' (· < ·) (d.lastVer :: d.stream) ∧
  (∀ t ∈ d.tasks, t = d.lastVer) ∧
  (d.tasks ≠ [] → d.delivered = []) ∧
  d.tasks.length ≤ 1

/-! ### Record-address parser (C8)

From src/chimeraTKApp/src/RecordAddress.cpp.  The parser works on the
character list of the address string; error values are the 1-based character
positions reported by `Parser::throwException` ("Error at character N ...",
where N is `position + 1`).
-/

/-- `Parser::appOrDevNameChars` (RecordAddress.cpp line 264). -/
def appOrDevNameChars : List Char :=
  "ABCDEFGHIJKLMNOPQRSTUVWXYZabcdefghijklmnopqrstuvwxyz_0123456789".toList

/-- `Parser::separatorChars` (RecordAddress.cpp line 265). -/
def separatorChars : List Char := " \t".toList

/-- Membership in `appOrDevNameChars`. -/
def isNameChar (c : Char) : Bool := appOrDevNameChars.contains c

/-- Membership in `separatorChars`. -/
def isSeparatorChar (c : Char) : Bool := separatorChars.contains c

/-- The characters of the option keyword accepted by `Parser::options`. -/
def nobidirectionalChars : List Char := "nobidirectional".toList

/-- The value-type keywords tried, in order, by `Parser::valueType`
(RecordAddress.cpp lines 224-260). -/
def valueTypeKeywords : List (List Char) :=
  ["bool", "int8", "uint8", "int16", "uint16", "int32", "uint32",
   "int64", "uint64", "float", "double", "string", "void"].map String.toList

/-- The result of a successful parse: the constructor arguments of
`RecordAddress` that the parser computes (application/device name, process
variable name, explicit value type if present, and the nobidirectional
option). -/
structure ParsedRecordAddress where
  appOrDevName : List Char
  pvName : List Char
  valueType : Option (List Char)
  noBidirectional : Bool
deriving DecidableEq, Repr

/-- `Parser::options` (RecordAddress.cpp lines 188-196): `expect("(")`, then
optionally `accept("nobidirectional")`, then `expect(")")`.  `pos` is the
0-based position of the remaining input `l`; errors are 1-based positions.
Returns the option flag, the new position and the remaining input. -/
def parseOptions (pos : Nat) (l : List Char) :
    Except Nat (Bool × Nat × List Char) :=
  if ['('].isPrefixOf l then
    let pos := pos + 1
    let l := l.drop 1
    let r :=
      if nobidirectionalChars.isPrefixOf l then
        (true, pos + nobidirectionalChars.length,
         l.drop nobidirectionalChars.length)
      else (false, pos, l)
    if [')'].isPrefixOf r.2.2 then .ok (r.1, r.2.1 + 1, r.2.2.drop 1)
    else .error (r.2.1 + 1)
  else .error (pos + 1)

/-- `Parser::valueType` (RecordAddress.cpp lines 224-260): try the keywords in
order with `accept` (a literal match against the input at the current
position); fail at the current position when none matches (this also covers
the end-of-string case). -/
def parseValueType (pos : Nat) (l : List Char) :
    Except Nat (List Char × Nat × List Char) :=
  match valueTypeKeywords.find? (fun k => k.isPrefixOf l) with
  | some k => .ok (k, pos + k.length, l.drop k.length)
  | none => .error (pos + 1)

/-- `Parser::parse` (RecordAddress.cpp lines 46-83).  `appOrDevName`,
`separator` and `pvName` are greedy scans (`expectAnyOf` followed by
`acceptAnyOf` loops); afterwards the parser distinguishes end of string, an
option list (peek is a parenthesis) and a value type, which may itself be
followed by a separator and an option list; finally end of string is
required. -/
def parseRecordAddress (s : List Char) : Except Nat ParsedRecordAddress :=
  let nm := s.takeWhile isNameChar
  if nm.isEmpty then .error 1
  else
    let r1 := s.dropWhile isNameChar
    let p1 := nm.length
    let w1 := r1.takeWhile isSeparatorChar
    if w1.isEmpty then .error (p1 + 1)
    else
      let r2 := r1.dropWhile isSeparatorChar
      let p2 := p1 + w1.length
      let pv := r2.takeWhile (fun c => !isSeparatorChar c)
      if pv.isEmpty then .error (p2 + 1)
      else
        let r3 := r2.dropWhile (fun c => !isSeparatorChar c)
        let p3 := p2 + pv.length
        if r3.isEmpty then .ok ⟨nm, pv, none, false⟩
        else
          let w2 := r3.takeWhile isSeparatorChar
          if w2.isEmpty then .error (p3 + 1)
          else
            let r4 := r3.dropWhile isSeparatorChar
            let p4 := p3 + w2.length
            match r4 with
            | [] => .error (p4 + 1)
            | c :: _ =>
              if c = '(' then
                match parseOptions p4 r4 with
                | .error e => .error e
                | .ok (nb, p5, r5) =>
                  if r5.isEmpty then .ok ⟨nm, pv, none, nb⟩
                  else .error (p5 + 1)
              else
                match parseValueType p4 r4 with
                | .error e => .error e
                | .ok (vt, p5, r5) =>
                  if r5.isEmpty then .ok ⟨nm, pv, some vt, false⟩
                  else
                    let w3 := r5.takeWhile isSeparatorChar
                    if w3.isEmpty then .error (p5 + 1)
                    else
                      let r6 := r5.dropWhile isSeparatorChar
                      let p6 := p5 + w3.length
                      match parseOptions p6 r6 with
                      | .error e => .error e
                      | .ok (nb, p7, r7) =>
                        if r7.isEmpty then .ok ⟨nm, pv, some vt, nb⟩
                        else .error (p7 + 1)

/-- The option-list production of the grammar stated in the specification:
`'(' option (',' option)* ')'` with `option := nobidirectional` - at least
one option, separated by commas.  A token matches when it starts with `(`,
ends with `)` and the inside splits on commas into (one or more) parts that
all equal `nobidirectional`. -/
def claimOptionList (l : List Char) : Bool :=
  (l.head? = some '(') && (l.getLast? = some ')') && (decide (2 ≤ l.length)) &&
  (((l.drop 1).dropLast.splitOn ',').all (fun p => p == nobidirectionalChars))

/-- The option lists that `Parser::options` actually accepts: an empty pair
of parentheses or exactly one `nobidirectional` option (no commas). -/
def codeOptionList (l : List Char) : Bool :=
  l == "()".toList || l == "(nobidirectional)".toList

/-- The part of an address after the process-variable name, parameterised by
the option-list production: nothing, a separated value type, a separated
option list, or a separated value type followed by a separated option
list. -/
def RestShape (optsOk : List Char → Bool) (rest : List Char) : Prop :=
  rest = [] ∨
  (∃ w vt, rest = w ++ vt ∧ w ≠ [] ∧ (∀ c ∈ w, isSeparatorChar c = true) ∧
    vt ∈ valueTypeKeywords) ∨
  (∃ w op, rest = w ++ op ∧ w ≠ [] ∧ (∀ c ∈ w, isSeparatorChar c = true) ∧
    optsOk op = true) ∨
  (∃ w vt w' op, rest = w ++ (vt ++ (w' ++ op)) ∧
    w ≠ [] ∧ (∀ c ∈ w, isSeparatorChar c = true) ∧ vt ∈ valueTypeKeywords ∧
    w' ≠ [] ∧ (∀ c ∈ w', isSeparatorChar c = true) ∧ optsOk op = true)

/-- The address grammar `name WS pv (WS valueType)? (WS optionList)?`
parameterised by the option-list production: `name` is a nonempty run of
`[A-Za-z0-9_]`, `WS` a nonempty run of separator characters, `pv` a nonempty
run of non-separator characters. -/
def AddressShape (optsOk : List Char → Bool) (s : List Char) : Prop :=
  ∃ nm w pv rest, s = nm ++ (w ++ (pv ++ rest)) ∧
    nm ≠ [] ∧ (∀ c ∈ nm, isNameChar c = true) ∧
    w ≠ [] ∧ (∀ c ∈ w, isSeparatorChar c = true) ∧
    pv ≠ [] ∧ (∀ c ∈ pv, isSeparatorChar c = false) ∧
    RestShape optsOk rest

/-- The grammar claimed in the specification (option list
`'(' option (',' option)* ')'`). -/
def ClaimGrammar (s : List Char) : Prop := AddressShape claimOptionList s

/-- The grammar the parser actually accepts (option list
`'(' 'nobidirectional'? ')'`). -/
def CodeGrammar (s : List Char) : Prop := AddressShape codeOptionList s

/-! ## Theorems -/

/-- C7: For every register present in the polled device's catalogue,
`getDefaultType` returns the 32-bit signed integer type when the register is
numeric, integral and signed; the 32-bit unsigned integer type when numeric,
integral and unsigned; the 64-bit floating-point type when numeric and
non-integral; the 32-bit unsigned integer type when boolean; and the unknown
marker for every other fundamental type.  For a name not present in the
catalogue it fails (NoSuchVariable). -/
theorem getDefaultType_matches_descriptor (cat : RegisterCatalogue)
    (name : String) :
    (List.lookup name cat = none → getDefaultType cat name = .error ()) ∧
    (∀ d, List.lookup name cat = some d →
      (d.fundamentalType = .numeric → d.isIntegral = true → d.isSigned = true →
          getDefaultType cat name = .ok .int32) ∧
      (d.fundamentalType = .numeric → d.isIntegral = true →
          d.isSigned = false → getDefaultType cat name = .ok .uint32) ∧
      (d.fundamentalType = .numeric → d.isIntegral = false →
          getDefaultType cat name = .ok .float64) ∧
      (d.fundamentalType = .boolean → getDefaultType cat name = .ok .uint32) ∧
      (d.fundamentalType ≠ .numeric → d.fundamentalType ≠ .boolean →
          getDefaultType cat name = .ok .unknown)) := by
  constructor
  · intro h
    simp [getDefaultType, h]
  · intro d h
    refine ⟨?_, ?_, ?_, ?_, ?_⟩
    · intro h1 h2 h3
      simp [getDefaultType, h, h1, h2, h3]
    · intro h1 h2 h3
      simp [getDefaultType, h, h1, h2, h3]
    · intro h1 h2
      simp [getDefaultType, h, h1, h2]
    · intro h1
      simp [getDefaultType, h, h1]
    · intro h1 h2
      cases hft : d.fundamentalType <;> simp_all [getDefaultType, h]

/-- Witness for C7 at a concrete catalogue. -/
theorem getDefaultType_matches_descriptor_witness :
    getDefaultType [("x", ⟨.numeric, true, true⟩)] "y" = .error () ∧
    getDefaultType [("x", ⟨.numeric, true, true⟩)] "x" = .ok .int32 :=
  ⟨(getDefaultType_matches_descriptor [("x", ⟨.numeric, true, true⟩)] "y").1
      (by decide),
   ((getDefaultType_matches_descriptor [("x", ⟨.numeric, true, true⟩)] "x").2
      ⟨.numeric, true, true⟩ (by decide)).1 rfl rfl rfl⟩

/-- C9: `finalizeInitialization` is one-shot: a second call fails and leaves
the state unchanged; after it has been called, `registerApplication` and
`registerDevice` fail (AlreadyFinalised) and leave the name-to-provider map
unchanged; registering a name already in use fails and leaves the map
unchanged. -/
theorem registry_finalize_one_shot (r : RegistryState)
    (appName devName aliasName : String) (k : Nat)
    (hf : r.finalizeInitializationCalled = false) :
    (registryFinalize r).2.1 = none ∧
    (registryFinalize (registryFinalize r).1).1 = (registryFinalize r).1 ∧
    (registryFinalize (registryFinalize r).1).2.1 = some .alreadyFinalized ∧
    registerApplication (registryFinalize r).1 appName =
      ((registryFinalize r).1, some .alreadyFinalized) ∧
    registerDevice (registryFinalize r).1 devName aliasName k =
      ((registryFinalize r).1, some .alreadyFinalized) ∧
    ((List.lookup appName r.pvProviders).isSome = true →
      registerApplication r appName = (r, some .nameInUse)) ∧
    ((List.lookup devName r.pvProviders).isSome = true →
      registerDevice r devName aliasName k = (r, some .nameInUse)) := by
  refine ⟨?_, ?_, ?_, ?_, ?_, ?_, ?_⟩ <;>
    simp [registryFinalize, registerApplication, registerDevice, hf]

/-- Witness for C9 at a concrete registry. -/
theorem registry_finalize_one_shot_witness :
    (registryFinalize ⟨false, [("a", .application)]⟩).2.1 = none ∧
    (registryFinalize (registryFinalize ⟨false, [("a", .application)]⟩).1).2.1 =
      some .alreadyFinalized ∧
    registerApplication ⟨false, [("a", .application)]⟩ "a" =
      (⟨false, [("a", .application)]⟩, some .nameInUse) := by
  have h := registry_finalize_one_shot ⟨false, [("a", .application)]⟩
    "a" "d" "alias" 2 rfl
  exact ⟨h.1, h.2.2.1, h.2.2.2.2.2.1 (by decide)⟩

/-- C6: For the polled-device provider, every read and every write returns
`immediate = true` with the completion callback already invoked inline when
the provider is synchronous (zero I/O threads), and `immediate = false` with
the task enqueued when asynchronous; the immediate flag passed to the
callback equals the return value. -/
theorem polled_read_write_immediate (synchronous readOk writeOk : Bool)
    (v : V) (ver : Nat) :
    ((deviceAccessRead synchronous readOk v ver).1 = synchronous ∧
     (deviceAccessWrite (V := V) synchronous writeOk).1 = synchronous) ∧
    (synchronous = true →
      (deviceAccessRead synchronous readOk v ver).2.2 = [] ∧
      (deviceAccessRead synchronous readOk v ver).2.1 =
        [if readOk then .readDone true v ver else .failed true] ∧
      (deviceAccessWrite (V := V) synchronous writeOk).2.2 = [] ∧
      (deviceAccessWrite (V := V) synchronous writeOk).2.1 =
        [if writeOk then .writeDone true else .failed true]) ∧
    (synchronous = false →
      (deviceAccessRead synchronous readOk v ver).2.1 = [] ∧
      (deviceAccessRead synchronous readOk v ver).2.2 =
        [if readOk then .readDone false v ver else .failed false] ∧
      (deviceAccessWrite (V := V) synchronous writeOk).2.1 = [] ∧
      (deviceAccessWrite (V := V) synchronous writeOk).2.2 =
        [if writeOk then .writeDone false else .failed false]) ∧
    (∀ e ∈ (deviceAccessRead synchronous readOk v ver).2.1,
      e.immediateFlag = (deviceAccessRead synchronous readOk v ver).1) ∧
    (∀ e ∈ (deviceAccessRead synchronous readOk v ver).2.2,
      e.immediateFlag = (deviceAccessRead synchronous readOk v ver).1) ∧
    (∀ e ∈ (deviceAccessWrite (V := V) synchronous writeOk).2.1,
      e.immediateFlag = (deviceAccessWrite (V := V) synchronous writeOk).1) ∧
    (∀ e ∈ (deviceAccessWrite (V := V) synchronous writeOk).2.2,
      e.immediateFlag = (deviceAccessWrite (V := V) synchronous writeOk).1) := by
  cases synchronous <;> cases readOk <;> cases writeOk <;>
    simp [deviceAccessRead, deviceAccessWrite, submitIoTask,
      IoEvent.immediateFlag]

/-- Witness for C6 at concrete inputs. -/
theorem polled_read_write_immediate_witness :
    (deviceAccessRead true true (5 : Nat) 7).2.1 =
      [.readDone true 5 7] ∧
    (deviceAccessRead false true (5 : Nat) 7).2.2 =
      [.readDone false 5 7] :=
  ⟨((polled_read_write_immediate true true true (5 : Nat) 7).2.1 rfl).2.1,
   ((polled_read_write_immediate false true true (5 : Nat) 7).2.2.1
      rfl).2.1⟩

/-- C5: A remote update `(v, ver)` arriving at a bidirectional output record
is accepted - the cached value and version are replaced, the notify-pending
flag is raised, and the record is scheduled for processing right away exactly
when no notify or write operation was already pending - if and only if no
prior version is recorded, or the version is strictly newer, or the version
is equal and the payload differs; in every other case the update is dropped
and the state is unchanged. -/
theorem output_reconciliation_accepts_iff [DecidableEq V]
    (st : OutputRecordState V) (v : V) (ver : Nat) :
    ((st.versionNumberValid = false ∨ st.versionNumber < ver ∨
        (ver = st.versionNumber ∧ st.value ≠ v)) →
      outputRecordNotify st v ver =
        ({ st with value := v, versionNumber := ver, notifyPending := true },
         !st.notifyPending && !st.writePending)) ∧
    (¬(st.versionNumberValid = false ∨ st.versionNumber < ver ∨
        (ver = st.versionNumber ∧ st.value ≠ v)) →
      outputRecordNotify st v ver = (st, false)) := by
  constructor <;> intro h
  · unfold outputRecordNotify
    rw [if_pos]
    · rcases h with h | h | h <;>
        simp [h, Bool.not_eq_true', decide_eq_true_iff]
    · rcases h with h | h | h
      · simp [h]
      · simp [h]
      · simp [h.1, h.2]
  · unfold outputRecordNotify
    rw [if_neg]
    push_neg at h
    obtain ⟨h1, h2, h3⟩ := h
    simp only [Bool.or_eq_true, Bool.and_eq_true, Bool.not_eq_true',
      decide_eq_true_iff, not_or]
    refine ⟨⟨?_, ?_⟩, ?_⟩
    · simpa using h1
    · omega
    · intro hcontra
      exact absurd (h3 hcontra.1) (by simpa using hcontra.2)

/-- Witness for C5: one accepted update (same version, differing payload) and
one dropped update (same version, same payload). -/
theorem output_reconciliation_accepts_iff_witness :
    outputRecordNotify (⟨true, 5, (10 : Nat), false, false⟩ :
        OutputRecordState Nat) 11 5 =
      (⟨true, 5, 11, true, false⟩, true) ∧
    outputRecordNotify (⟨true, 5, (10 : Nat), false, false⟩ :
        OutputRecordState Nat) 10 5 =
      (⟨true, 5, 10, false, false⟩, false) :=
  ⟨(output_reconciliation_accepts_iff ⟨true, 5, 10, false, false⟩ 11 5).1
      (Or.inr (Or.inr ⟨rfl, by decide⟩)),
   (output_reconciliation_accepts_iff ⟨true, 5, 10, false, false⟩ 10 5).2
      (by decide)⟩

/-- The handles produced by the doNotify collection loop: handles with a
callback get their notification-pending flag set. -/
theorem doNotifyCollect_handles (l : List PVSupportHandle) :
    (doNotifyCollect l).1 = l.map (fun p =>
      if p.notifyCallback.isSome then { p with notificationPending := true }
      else p) := by
  induction l with
  | nil => rfl
  | cons p rest ih =>
    cases hcb : p.notifyCallback <;> simp [doNotifyCollect, hcb, ih]

/-- The callbacks collected by the doNotify collection loop. -/
theorem doNotifyCollect_callbacks (l : List PVSupportHandle) :
    (doNotifyCollect l).2.1 = l.filterMap (fun p => p.notifyCallback) := by
  induction l with
  | nil => rfl
  | cons p rest ih =>
    cases hcb : p.notifyCallback <;> simp [doNotifyCollect, hcb, ih]

/-- The number of handles skipped by the doNotify collection loop. -/
theorem doNotifyCollect_skipped (l : List PVSupportHandle) :
    (doNotifyCollect l).2.2 =
      (l.filter (fun p => !p.notifyCallback.isSome)).length := by
  induction l with
  | nil => rfl
  | cons p rest ih =>
    cases hcb : p.notifyCallback <;> simp [doNotifyCollect, hcb, ih]

/-- Splitting a list by a predicate preserves the total length. -/
theorem length_filter_split (l : List α) (p : α → Bool) :
    (l.filter p).length + (l.filter (fun a => !p a)).length = l.length := by
  induction l with
  | nil => rfl
  | cons a t ih => cases h : p a <;> simp [List.filter_cons, h] <;> omega

/-- C1: `doNotify`, called under its asserted precondition
`notificationPendingCount == 0` and with the callback counter matching the
live subscribers holding a callback, first stores the pulled `(v, ver)` into
`lastValue` / `lastVersionNumber`; it returns no closure exactly when no live
subscriber holds a callback; otherwise it leaves
`notificationPendingCount` equal to the number of live subscribers holding a
callback, marks each such subscriber's notification-pending flag, and returns
a closure invoking exactly the collected callbacks with `(v, ver)`. -/
theorem doNotify_fanout (s : SharedPVState V) (v : V) (ver : Nat)
    (hpc : s.notificationPendingCount = 0)
    (hcb : s.notifyCallbackCount =
      ((s.pvSupports.filter (fun p => p.alive)).filter
        (fun p => p.notifyCallback.isSome)).length) :
    (doNotify s v ver).1.lastValue = v ∧
    (doNotify s v ver).1.lastVersionNumber = ver ∧
    ((doNotify s v ver).2 = none ↔
      (s.pvSupports.filter (fun p => p.alive)).filter
        (fun p => p.notifyCallback.isSome) = []) ∧
    ((s.pvSupports.filter (fun p => p.alive)).filter
        (fun p => p.notifyCallback.isSome) ≠ [] →
      (doNotify s v ver).1.notificationPendingCount =
        ((s.pvSupports.filter (fun p => p.alive)).filter
          (fun p => p.notifyCallback.isSome)).length ∧
      (∀ p ∈ (doNotify s v ver).1.pvSupports, p.notifyCallback.isSome →
        p.notificationPending = true) ∧
      (doNotify s v ver).2 = some
        ((s.pvSupports.filter (fun p => p.alive)).filterMap
          (fun p => p.notifyCallback.map (fun cb => (cb, v, ver))))) := by
  by_cases hc : s.notifyCallbackCount = 0
  · have hempty : (s.pvSupports.filter (fun p => p.alive)).filter
        (fun p => p.notifyCallback.isSome) = [] := by
      rw [← List.length_eq_zero]
      omega
    simp [doNotify, hc, hempty]
  · have hne : (s.pvSupports.filter (fun p => p.alive)).filter
        (fun p => p.notifyCallback.isSome) ≠ [] := by
      intro hcontra
      rw [hcontra] at hcb
      simp at hcb
      exact hc hcb
    refine ⟨?_, ?_, ?_, ?_⟩
    · simp [doNotify, hc]
    · simp [doNotify, hc]
    · have hnn : (doNotify s v ver).2 ≠ none := by simp [doNotify, hc]
      exact ⟨fun hx => absurd hx hnn, fun hx => absurd hx hne⟩
    · intro _
      refine ⟨?_, ?_, ?_⟩
      · have hsplit := length_filter_split
          (s.pvSupports.filter (fun p => p.alive))
          (fun p => p.notifyCallback.isSome)
        simp only [doNotify, hc, if_false, doNotifyCollect_skipped]
        simp only [hpc]
        omega
      · intro p hp hps
        simp only [doNotify, hc, if_false, doNotifyCollect_handles] at hp
        obtain ⟨q, hq, rfl⟩ := List.mem_map.1 hp
        by_cases hqs : q.notifyCallback.isSome
        · simp [hqs]
        · simp [hqs] at hps
      · simp only [doNotify, hc, if_false, doNotifyCollect_callbacks]
        rw [List.map_filterMap]

/-- Witness for C1: a shared support with one live subscriber holding
callback 3, one live subscriber without a callback, and one dead
subscriber. -/
theorem doNotify_fanout_witness :
    (doNotify (⟨0, 0, 0, 1,
        [⟨true, some 3, false⟩, ⟨true, none, false⟩, ⟨false, some 9, false⟩],
        true, true⟩ : SharedPVState Nat) 5 2).2 = some [(3, 5, 2)] ∧
    (doNotify (⟨0, 0, 0, 1,
        [⟨true, some 3, false⟩, ⟨true, none, false⟩, ⟨false, some 9, false⟩],
        true, true⟩ : SharedPVState Nat) 5 2).1.notificationPendingCount
      = 1 := by
  have h := doNotify_fanout (V := Nat)
    ⟨0, 0, 0, 1,
      [⟨true, some 3, false⟩, ⟨true, none, false⟩, ⟨false, some 9, false⟩],
      true, true⟩ 5 2 (by decide) (by decide)
  have h2 := h.2.2.2 (by decide)
  exact ⟨h2.2.2.trans (by rfl), h2.1.trans (by rfl)⟩

/-- C3: `notifyFinished` on a handle is idempotent: when a notification is
pending, the first call decrements the shared pending count exactly once and
clears the handle's flag; when none is pending (also after `cancelNotify`,
i.e. `notify` with a null callback, already cleared the flag) the call leaves
the handle and all shared state unchanged.  Applying `notifyFinished` twice
equals applying it once. -/
theorem notifyFinished_idempotent (h : PVSupportHandle) (s : SharedPVState V) :
    (h.notificationPending = true →
      pvSupportNotifyFinished h s =
        ({ h with notificationPending := false },
         { s with notificationPendingCount := s.notificationPendingCount - 1 },
         decide (s.notificationPendingCount - 1 = 0))) ∧
    (h.notificationPending = false →
      pvSupportNotifyFinished h s = (h, s, false)) ∧
    (pvSupportNotifyFinished (pvSupportNotifyFinished h s).1
        (pvSupportNotifyFinished h s).2.1 =
      ((pvSupportNotifyFinished h s).1, (pvSupportNotifyFinished h s).2.1,
       false)) ∧
    (sharedCanNotify s = true →
      ∀ h' s' task, pvSupportNotify h s none = .ok (h', s', task) →
        task = none ∧ h'.notificationPending = false ∧
        pvSupportNotifyFinished h' s' = (h', s', false)) := by
  refine ⟨?_, ?_, ?_, ?_⟩
  · intro hp
    simp [pvSupportNotifyFinished, sharedNotifyFinished, hp]
  · intro hp
    simp [pvSupportNotifyFinished, hp]
  · cases hp : h.notificationPending <;>
      simp [pvSupportNotifyFinished, sharedNotifyFinished, hp]
  · intro hcn h' s' task hok
    cases hp : h.notificationPending <;>
      cases hcb : h.notifyCallback <;>
      simp [pvSupportNotify, pvSupportNotifyFinished, sharedNotifyFinished,
        hcn, hp, hcb] at hok ⊢ <;>
      simp [← hok.1, ← hok.2.1, pvSupportNotifyFinished, hok.2.2]

/-- Witness for C3 at a concrete handle and shared state. -/
theorem notifyFinished_idempotent_witness :
    pvSupportNotifyFinished ⟨true, some 4, true⟩
        (⟨0, 0, 1, 1, [], true, true⟩ : SharedPVState Nat) =
      (⟨true, some 4, false⟩, ⟨0, 0, 0, 1, [], true, true⟩, true) ∧
    pvSupportNotifyFinished ⟨true, some 4, false⟩
        (⟨0, 0, 0, 1, [], true, true⟩ : SharedPVState Nat) =
      (⟨true, some 4, false⟩, ⟨0, 0, 0, 1, [], true, true⟩, false) := by
  have h1 := notifyFinished_idempotent (V := Nat) ⟨true, some 4, true⟩
    ⟨0, 0, 1, 1, [], true, true⟩
  have h2 := notifyFinished_idempotent (V := Nat) ⟨true, some 4, false⟩
    ⟨0, 0, 0, 1, [], true, true⟩
  exact ⟨(h1.1 rfl).trans (by rfl), h2.2.1 rfl⟩

/-- C10: `read` on a streaming shared support always completes immediately:
it returns true and the invoked callback (success or error) carries
`immediate = true`; when the process variable has the wait-for-new-data flag
the stream is not accessed and the cached
`(lastValue, lastVersionNumber)` is delivered with the state unchanged. -/
theorem sharedRead_immediate (s : SharedPVState V) (readLatestOk : Bool)
    (paValue : V) (paVersion : Nat) :
    (sharedRead s readLatestOk paValue paVersion).2.2.2 = true ∧
    (sharedRead s readLatestOk paValue paVersion).2.1.immediateFlag = true ∧
    (s.waitForNewData = true →
      sharedRead s readLatestOk paValue paVersion =
        (s, .success true s.lastValue s.lastVersionNumber, false, true)) := by
  cases hw : s.waitForNewData <;> cases readLatestOk <;>
    simp [sharedRead, hw, ReadOutcome.immediateFlag]

/-- Witness for C10 at a concrete shared state with wait-for-new-data. -/
theorem sharedRead_immediate_witness :
    sharedRead (⟨42, 7, 0, 0, [], true, true⟩ : SharedPVState Nat)
        true 1 2 =
      (⟨42, 7, 0, 0, [], true, true⟩, .success true 42 7, false, true) :=
  (sharedRead_immediate (⟨42, 7, 0, 0, [], true, true⟩ : SharedPVState Nat)
      true 1 2).2.2 rfl

/-- Head of an append when the first list is nonempty. -/
theorem head?_append_left (l l' : List α) (h : l ≠ []) :
    (l ++ l').head? = l.head? := by
  cases l with
  | nil => exact absurd rfl h
  | cons a t => rfl

/-- The invariant `DispatchHeadInv` holds in the post-registration state. -/
theorem dispatchHeadInv_init (v0 : Nat) (stream : List Nat) :
    DispatchHeadInv v0 (dispatchInit v0 stream) := by
  refine ⟨fun _ => ⟨rfl, rfl⟩, fun _ => rfl, by simp [dispatchInit], ?_⟩
  intro hne
  exact absurd rfl hne

/-- The invariant `DispatchHeadInv` is preserved by dispatcher steps. -/
theorem dispatchHeadInv_step (v0 : Nat) (d d' : DispatchState)
    (hinv : DispatchHeadInv v0 d) (hstep : DispatchStep d d') :
    DispatchHeadInv v0 d' := by
  obtain ⟨h1, h2, h3, h4⟩ := hinv
  cases hstep with
  | runTask t ts hts =>
    have hdel : d.delivered = [] := h2 (by rw [hts]; simp)
    obtain ⟨htv, _⟩ := h1 hdel
    rw [htv] at hts
    injection hts with ht1 ht2
    refine ⟨?_, ?_, ?_, ?_⟩
    · intro hx
      simp [hdel] at hx
    · intro hx
      exact absurd ht2.symm hx
    · simp [← ht2]
    · intro _
      simp [hdel, ← ht1]
  | fanOut v vs hp htasks hstream =>
    have hdelne : d.delivered ≠ [] := by
      intro hdel
      have := (h1 hdel).2
      omega
    refine ⟨?_, ?_, ?_, ?_⟩
    · intro hx
      simp at hx
    · intro hx
      simp only at hx
      exact absurd htasks hx
    · simp [htasks]
    · intro _
      simp only
      rw [head?_append_left _ _ hdelne]
      exact h4 hdelne
  | ack hp htasks =>
    refine ⟨?_, ?_, ?_, ?_⟩
    · intro hdel
      simp only at hdel
      have hv := h1 hdel
      rw [htasks] at hv
      exact absurd hv.1 (by simp)
    · intro hx
      exact h2 hx
    · exact h3
    · intro hx
      exact h4 hx

/-- Every reachable dispatcher state satisfies `DispatchHeadInv`. -/
theorem dispatchReach_headInv (v0 : Nat) (stream : List Nat)
    (d : DispatchState) (hr : DispatchReach v0 stream d) :
    DispatchHeadInv v0 d := by
  induction hr with
  | start => exact dispatchHeadInv_init v0 stream
  | step d d' _ hstep ih => exact dispatchHeadInv_step v0 d d' ih hstep

/-- In every reachable dispatcher state, the first delivery to the
subscriber is the initial notification carrying `v0`. -/
theorem dispatch_first_delivery (v0 : Nat) (stream : List Nat)
    (d : DispatchState) (hr : DispatchReach v0 stream d)
    (hne : d.delivered ≠ []) : d.delivered.head? = some v0 :=
  (dispatchReach_headInv v0 stream d hr).2.2.2 hne

/-- The invariant `DispatchChainInv` holds initially, given that the stream
delivers strictly increasing versions above the registration snapshot. -/
theorem dispatchChainInv_init (v0 : Nat) (stream : List Nat)
    (hchain : List.Chain' (· < ·) (v0 :: stream)) :
    DispatchChainInv (dispatchInit v0 stream) := by
  refine ⟨by simp [dispatchInit], by simp [dispatchInit], ?_, ?_, ?_, ?_⟩
  · simpa [dispatchInit] using hchain
  · intro t ht
    simpa [dispatchInit] using ht
  · intro _
    rfl
  · simp [dispatchInit]

/-- The invariant `DispatchChainInv` is preserved by dispatcher steps. -/
theorem dispatchChainInv_step (d d' : DispatchState)
    (hinv : DispatchChainInv d) (hstep : DispatchStep d d') :
    DispatchChainInv d' := by
  obtain ⟨h1, h2, h3, h4, h5, h6⟩ := hinv
  cases hstep with
  | runTask t ts hts =>
    have hdel : d.delivered = [] := h5 (by rw [hts]; simp)
    have htv : t = d.lastVer := h4 t (by rw [hts]; simp)
    have hts0 : ts = [] := by
      rw [hts] at h6
      simpa using h6
    refine ⟨?_, ?_, ?_, ?_, ?_, ?_⟩
    · simp [hdel]
    · intro x hx
      simp only at hx ⊢
      rw [hdel] at hx
      simp at hx
      omega
    · exact h3
    · intro u hu
      simp [hts0] at hu
    · intro hx
      exact absurd hts0 hx
    · simp [hts0]
  | fanOut v vs hp htasks hstream =>
    have hlt : d.lastVer < v := by
      rw [hstream] at h3
      exact (List.chain'_cons.1 h3).1
    refine ⟨?_, ?_, ?_, ?_, ?_, ?_⟩
    · simp only
      rw [List.chain'_append]
      refine ⟨h1, List.chain'_singleton v, ?_⟩
      intro x hx y hy
      simp at hy
      subst hy
      exact lt_of_le_of_lt (h2 x (by simpa using hx)) hlt
    · intro x hx
      simp only at hx ⊢
      rw [List.getLast?_concat] at hx
      injection hx with hx
      omega
    · simp only
      rw [hstream] at h3
      exact (List.chain'_cons.1 h3).2
    · intro u hu
      simp only [htasks] at hu
      simp at hu
    · intro hx
      simp only at hx
      exact absurd htasks hx
    · simp [htasks]
  | ack hp htasks =>
    exact ⟨h1, h2, h3, h4, h5, h6⟩

/-- Every reachable dispatcher state satisfies `DispatchChainInv`, given a
strictly increasing stream. -/
theorem dispatchReach_chainInv (v0 : Nat) (stream : List Nat)
    (d : DispatchState) (hchain : List.Chain' (· < ·) (v0 :: stream))
    (hr : DispatchReach v0 stream d) : DispatchChainInv d := by
  induction hr with
  | start => exact dispatchChainInv_init v0 stream hchain
  | step d d' _ hstep ih => exact dispatchChainInv_step d d' ih hstep

/-- C4: for a subscriber whose callback stays registered continuously, the
sequence of versions delivered to its callback - the initial notification
followed by the fan-outs - is strictly increasing in every reachable
dispatcher state, given that the producer stream delivers strictly
increasing versions above the registration snapshot `v0`. -/
theorem delivered_versions_strictly_monotonic (v0 : Nat) (stream : List Nat)
    (d : DispatchState) (hchain : List.Chain' (· < ·) (v0 :: stream))
    (hr : DispatchReach v0 stream d) :
    List.Chain' (· < ·) d.delivered :=
  (dispatchReach_chainInv v0 stream d hchain hr).1

/-- Witness for C4: a concrete trace - initial notification of version 1,
acknowledgement, then a fan-out of version 2 - reaches a state whose
delivered sequence [1, 2] the theorem shows strictly increasing. -/
theorem delivered_versions_strictly_monotonic_witness :
    List.Chain' (· < ·)
      (⟨2, [], [], 1, [1, 2]⟩ : DispatchState).delivered := by
  have s1 : DispatchStep (dispatchInit 1 [2])
      (⟨1, [2], [], 1, [1]⟩ : DispatchState) :=
    DispatchStep.runTask _ 1 [] rfl
  have s2 : DispatchStep (⟨1, [2], [], 1, [1]⟩ : DispatchState)
      (⟨1, [2], [], 0, [1]⟩ : DispatchState) :=
    DispatchStep.ack _ rfl rfl
  have s3 : DispatchStep (⟨1, [2], [], 0, [1]⟩ : DispatchState)
      (⟨2, [], [], 1, [1, 2]⟩ : DispatchState) :=
    DispatchStep.fanOut _ 2 [] rfl rfl rfl
  have hr : DispatchReach 1 [2] ⟨2, [], [], 1, [1, 2]⟩ :=
    DispatchReach.step _ _
      (DispatchReach.step _ _
        (DispatchReach.step _ _ (DispatchReach.start) s1) s2) s3
  exact delivered_versions_strictly_monotonic 1 [2] _
    (List.chain'_cons.2 ⟨by omega, List.chain'_singleton 2⟩) hr

/-- C2 counterexample: registering a non-null callback (id 2) on a handle
whose notification is still pending enqueues no initial-notification task
and leaves the pending count unchanged - contrary to the claim that every
registration of a non-null callback enqueues an initial-notification task
with the count incremented. -/
theorem notify_registration_counterexample :
    pvSupportNotify ⟨true, some 1, true⟩
        (⟨0, 0, 1, 1, [], true, true⟩ : SharedPVState Nat) (some 2) =
      .ok (⟨true, some 2, true⟩, ⟨0, 0, 1, 1, [], true, true⟩, none) := by
  rfl

/-- C2 (amended): when a non-null callback is registered on a streaming
consumer handle that has no notification pending, an initial-notification
task invoking exactly that callback with the shared support's current
`(lastValue, lastVersionNumber)` is handed to the dispatcher task queue,
with the pending count incremented before the task is enqueued; and this
initial delivery precedes any later fan-out to that subscriber: in the
dispatcher model, whenever anything has been delivered, the first delivered
version is the registration snapshot. -/
theorem notify_registration_initial (h : PVSupportHandle)
    (s : SharedPVState V) (cb : Nat)
    (hp : h.notificationPending = false) (hcn : sharedCanNotify s = true) :
    pvSupportNotify h s (some cb) =
      .ok ({ h with notifyCallback := some cb, notificationPending := true },
           { s with
               notifyCallbackCount :=
                 if h.notifyCallback.isNone then s.notifyCallbackCount + 1
                 else s.notifyCallbackCount,
               notificationPendingCount := s.notificationPendingCount + 1 },
           some (cb, s.lastValue, s.lastVersionNumber)) ∧
    (∀ stream d, DispatchReach s.lastVersionNumber stream d →
      d.delivered ≠ [] → d.delivered.head? = some s.lastVersionNumber) := by
  constructor
  · cases hcb : h.notifyCallback <;>
      simp [pvSupportNotify, doInitialNotification, hcn, hp, hcb]
  · intro stream d hr hne
    exact dispatch_first_delivery _ _ _ hr hne

/-- Witness for C2 at a concrete handle and shared state. -/
theorem notify_registration_initial_witness :
    pvSupportNotify ⟨true, none, false⟩
        (⟨9, 4, 0, 0, [], true, true⟩ : SharedPVState Nat) (some 7) =
      .ok (⟨true, some 7, true⟩, ⟨9, 4, 1, 1, [], true, true⟩,
           some (7, 9, 4)) := by
  have hmain := (notify_registration_initial (V := Nat) ⟨true, none, false⟩
    ⟨9, 4, 0, 0, [], true, true⟩ 7 rfl rfl).1
  simpa using hmain

/-- Boolean prefix test against the prefix order. -/
theorem isPrefixOf_eq (l m : List Char) : l.isPrefixOf m = true ↔ l <+: m :=
  List.isPrefixOf_iff_prefix

/-- A nonempty list is not `isEmpty`. -/
theorem isEmpty_false_of_ne (l : List α) (h : l ≠ []) : l.isEmpty = false := by
  cases l with
  | nil => exact absurd rfl h
  | cons a t => rfl

/-- Greedy scans cut an append at the first failing character. -/
theorem takeWhile_of_append (p : α → Bool) (a b : List α)
    (ha : ∀ c ∈ a, p c = true) (hb : ∀ c, b.head? = some c → p c = false) :
    (a ++ b).takeWhile p = a ∧ (a ++ b).dropWhile p = b := by
  induction a with
  | nil =>
    simp only [List.nil_append]
    cases b with
    | nil => simp
    | cons c bs =>
      have hc := hb c rfl
      simp [List.takeWhile_cons, List.dropWhile_cons, hc]
  | cons x xs ih =>
    have hx : p x = true := ha x (List.mem_cons_self x xs)
    have ih' := ih (fun c hc => ha c (List.mem_cons_of_mem x hc))
    simp [List.takeWhile_cons, List.dropWhile_cons, hx, ih'.1, ih'.2]

/-- Separator characters are space and tab. -/
theorem sep_char_cases (c : Char) (h : isSeparatorChar c = true) :
    c = ' ' ∨ c = '\t' := by
  simp [isSeparatorChar, separatorChars] at h
  simpa using h

/-- Separator characters are not name characters. -/
theorem sep_not_name (c : Char) (h : isSeparatorChar c = true) :
    isNameChar c = false := by
  rcases sep_char_cases c h with rfl | rfl <;> rfl

/-- A cons list is not a prefix of a cons list with a different head. -/
theorem cons_isPrefixOf_cons_false (c d : Char) (cs ds : List Char)
    (h : c ≠ d) : (c :: cs).isPrefixOf (d :: ds) = false := by
  rw [Bool.eq_false_iff]
  intro hx
  obtain ⟨t, ht⟩ := (isPrefixOf_eq _ _).1 hx
  simp at ht
  exact h ht.1

/-- No value-type keyword is a proper prefix of another. -/
theorem keywords_mutual :
    ∀ k ∈ valueTypeKeywords, ∀ v ∈ valueTypeKeywords,
      k.isPrefixOf v = true → k = v := by decide

/-- Every value-type keyword is nonempty. -/
theorem keywords_ne_nil : ∀ k ∈ valueTypeKeywords, k ≠ [] := by decide

/-- No value-type keyword starts with a parenthesis. -/
theorem keywords_head_ne_paren :
    ∀ k ∈ valueTypeKeywords, k.head? ≠ some '(' := by decide

/-- `find?` returns the unique element satisfying the predicate. -/
theorem find?_eq_some_unique {p : List Char → Bool} {x : List Char}
    (l : List (List Char)) (hx : x ∈ l) (hpx : p x = true)
    (huniq : ∀ y ∈ l, p y = true → y = x) : l.find? p = some x := by
  induction l with
  | nil => cases hx
  | cons a t ih =>
    by_cases hpa : p a = true
    · have ha : a = x := huniq a (List.mem_cons_self a t) hpa
      subst ha
      exact List.find?_cons_of_pos t hpa
    · have hxt : x ∈ t := by
        rcases List.mem_cons.1 hx with h | h
        · subst h
          exact absurd hpx hpa
        · exact h
      rw [List.find?_cons_of_neg t hpa]
      exact ih hxt (fun y hy hp => huniq y (List.mem_cons_of_mem _ hy) hp)

/-- The keyword scan of `Parser::valueType` finds exactly the keyword that
the input starts with. -/
theorem find?_keyword (vt tail : List Char) (hvt : vt ∈ valueTypeKeywords) :
    valueTypeKeywords.find? (fun k => k.isPrefixOf (vt ++ tail)) = some vt := by
  apply find?_eq_some_unique valueTypeKeywords hvt
  · exact (isPrefixOf_eq _ _).2 (List.prefix_append vt tail)
  · intro y hy hpy
    have hy' : y <+: vt ++ tail := (isPrefixOf_eq _ _).1 hpy
    have hv' : vt <+: vt ++ tail := List.prefix_append _ _
    rcases le_total y.length vt.length with hle | hle
    · exact keywords_mutual y hy vt hvt
        ((isPrefixOf_eq _ _).2 (List.prefix_of_prefix_length_le hy' hv' hle))
    · exact (keywords_mutual vt hvt y hy
        ((isPrefixOf_eq _ _).2
          (List.prefix_of_prefix_length_le hv' hy' hle))).symm

/-- `parseValueType` on a keyword followed by anything consumes exactly that
keyword. -/
theorem parseValueType_of_keyword (pos : Nat) (vt tail : List Char)
    (hvt : vt ∈ valueTypeKeywords) :
    parseValueType pos (vt ++ tail) = .ok (vt, pos + vt.length, tail) := by
  simp [parseValueType, find?_keyword vt tail hvt, List.drop_left]

/-- Characterisation of a successful `parseValueType`. -/
theorem parseValueType_ok (pos : Nat) (l vt : List Char) (pos' : Nat)
    (r : List Char) (h : parseValueType pos l = .ok (vt, pos', r)) :
    vt ∈ valueTypeKeywords ∧ l = vt ++ r ∧ pos' = pos + vt.length := by
  unfold parseValueType at h
  cases hf : valueTypeKeywords.find? (fun k => k.isPrefixOf l) with
  | none =>
    rw [hf] at h
    cases h
  | some k =>
    rw [hf] at h
    have hk : k ∈ valueTypeKeywords := List.mem_of_find?_eq_some hf
    have hpk := @List.find?_some _ (fun k => k.isPrefixOf l) k
      valueTypeKeywords hf
    simp only at hpk
    obtain ⟨t, rfl⟩ := (isPrefixOf_eq _ _).1 hpk
    change Except.ok (k, pos + k.length, List.drop k.length (k ++ t)) =
      Except.ok (vt, pos', r) at h
    rw [List.drop_left] at h
    injection h with h
    obtain ⟨h1, h2, h3⟩ : k = vt ∧ pos + k.length = pos' ∧ t = r := by
      have e1 := congrArg Prod.fst h
      have e2 := congrArg (fun q => q.2.1) h
      have e3 := congrArg (fun q => q.2.2) h
      exact ⟨e1, e2, e3⟩
    subst h1
    subst h3
    exact ⟨hk, rfl, h2.symm⟩

/-- A failing `parseValueType` reports the current position. -/
theorem parseValueType_error (pos : Nat) (l : List Char) (e : Nat)
    (h : parseValueType pos l = .error e) : e = pos + 1 := by
  unfold parseValueType at h
  cases hf : valueTypeKeywords.find? (fun k => k.isPrefixOf l) <;> rw [hf] at h
  · injection h with h
    exact h.symm
  · cases h

/-- The option keyword starts with 'n'. -/
theorem nobidir_head :
    nobidirectionalChars = 'n' :: "obidirectional".toList := rfl

/-- `parseOptions` accepts an empty pair of parentheses. -/
theorem parseOptions_empty_pair (pos : Nat) (r : List Char) :
    parseOptions pos ('(' :: ')' :: r) = .ok (false, pos + 1 + 1, r) := by
  have h1 : ['('].isPrefixOf ('(' :: ')' :: r) = true :=
    (isPrefixOf_eq _ _).2 ⟨')' :: r, rfl⟩
  have h2 : nobidirectionalChars.isPrefixOf (')' :: r) = false := by
    rw [nobidir_head]
    exact cons_isPrefixOf_cons_false _ _ _ _ (by decide)
  have h3 : [')'].isPrefixOf (')' :: r) = true :=
    (isPrefixOf_eq _ _).2 ⟨r, rfl⟩
  simp [parseOptions, h1, h2, h3]

/-- `parseOptions` accepts a single nobidirectional option. -/
theorem parseOptions_nobidir (pos : Nat) (r : List Char) :
    parseOptions pos ('(' :: (nobidirectionalChars ++ ')' :: r)) =
      .ok (true, pos + 1 + nobidirectionalChars.length + 1, r) := by
  have h1 : ['('].isPrefixOf ('(' :: (nobidirectionalChars ++ ')' :: r))
      = true := (isPrefixOf_eq _ _).2 ⟨_, rfl⟩
  have h2 : nobidirectionalChars.isPrefixOf
      (nobidirectionalChars ++ ')' :: r) = true :=
    (isPrefixOf_eq _ _).2 (List.prefix_append _ _)
  have h3 : [')'].isPrefixOf
      ((nobidirectionalChars ++ ')' :: r).drop nobidirectionalChars.length)
      = true := by
    rw [List.drop_left]
    exact (isPrefixOf_eq _ _).2 ⟨r, rfl⟩
  simp [parseOptions, h1, h2, h3, List.drop_left]

/-- Characterisation of a successful `parseOptions`: the consumed input is
exactly an empty pair of parentheses or a single nobidirectional option. -/
theorem parseOptions_ok_shape (pos : Nat) (l : List Char) (nb : Bool)
    (pos' : Nat) (r : List Char)
    (h : parseOptions pos l = .ok (nb, pos', r)) :
    (nb = false ∧ l = '(' :: ')' :: r ∧ pos' = pos + 1 + 1) ∨
    (nb = true ∧ l = '(' :: (nobidirectionalChars ++ ')' :: r) ∧
      pos' = pos + 1 + nobidirectionalChars.length + 1) := by
  unfold parseOptions at h
  cases hpar : ['('].isPrefixOf l <;> rw [hpar] at h
  · cases h
  · obtain ⟨t, rfl⟩ := (isPrefixOf_eq _ _).1 hpar
    simp only [List.singleton_append, List.drop_succ_cons, List.drop_zero]
      at h ⊢
    cases hnb : nobidirectionalChars.isPrefixOf t <;>
        simp only [hnb, if_true, if_false, Bool.false_eq_true,
          ite_true, ite_false] at h
    · cases hrp : [')'].isPrefixOf t <;> rw [hrp] at h
      · cases h
      · obtain ⟨u, rfl⟩ := (isPrefixOf_eq _ _).1 hrp
        simp only [List.singleton_append, List.drop_succ_cons,
          List.drop_zero] at h
        left
        injection h with h
        obtain ⟨h1, h2, h3⟩ : false = nb ∧ pos + 1 + 1 = pos' ∧ u = r := by
          simpa [Prod.ext_iff] using h
        subst h1
        subst h2
        subst h3
        exact ⟨rfl, rfl, rfl⟩
    · obtain ⟨u, rfl⟩ := (isPrefixOf_eq _ _).1 hnb
      rw [List.drop_left] at h
      cases hrp : [')'].isPrefixOf u <;> rw [hrp] at h
      · cases h
      · obtain ⟨w, rfl⟩ := (isPrefixOf_eq _ _).1 hrp
        simp only [List.singleton_append, List.drop_succ_cons,
          List.drop_zero] at h
        right
        injection h with h
        obtain ⟨h1, h2, h3⟩ : true = nb ∧
            pos + 1 + nobidirectionalChars.length + 1 = pos' ∧ w = r := by
          simpa [Prod.ext_iff] using h
        subst h1
        subst h2
        subst h3
        exact ⟨rfl, rfl, rfl⟩
    
/-- A failing `parseOptions` reports a position between the current one and
one past the end of the remaining input. -/
theorem parseOptions_error_bound (pos : Nat) (l : List Char) (e : Nat)
    (h : parseOptions pos l = .error e) :
    pos + 1 ≤ e ∧ e ≤ pos + l.length + 1 := by
  unfold parseOptions at h
  cases hpar : ['('].isPrefixOf l <;> rw [hpar] at h
  · injection h with h
    omega
  · obtain ⟨t, rfl⟩ := (isPrefixOf_eq _ _).1 hpar
    simp only [List.singleton_append, List.drop_succ_cons, List.drop_zero]
      at h
    cases hnb : nobidirectionalChars.isPrefixOf t <;>
        simp only [hnb, Bool.false_eq_true, ite_true, ite_false] at h
    · cases hrp : [')'].isPrefixOf t <;> rw [hrp] at h
      · injection h with h
        simp [List.length_append]
        omega
      · cases h
    · obtain ⟨u, rfl⟩ := (isPrefixOf_eq _ _).1 hnb
      rw [List.drop_left] at h
      cases hrp : [')'].isPrefixOf u <;> rw [hrp] at h
      · injection h with h
        simp [List.length_append]
        omega
      · cases h

/-- No value-type keyword starts with a separator character. -/
theorem keywords_head_not_sep :
    ∀ k ∈ valueTypeKeywords,
      k.head?.all (fun c => !isSeparatorChar c) = true := by decide

/-- An append with a nonempty left part is nonempty. -/
theorem append_ne_nil_left (a b : List α) (h : a ≠ []) : a ++ b ≠ [] := by
  cases a with
  | nil => exact absurd rfl h
  | cons x xs => simp

/-- The two option lists the parser accepts, as explicit character lists. -/
theorem codeOptionList_cases (op : List Char) (h : codeOptionList op = true) :
    op = '(' :: ')' :: [] ∨
    op = '(' :: (nobidirectionalChars ++ [')']) := by
  unfold codeOptionList at h
  rw [Bool.or_eq_true] at h
  rcases h with h1 | h1
  · left
    simpa using h1
  · right
    have hop : op = "(nobidirectional)".toList := by simpa using h1
    rw [hop]
    rfl

/-- The head of a value-type keyword is not a separator character. -/
theorem keyword_head_sep_false (vc : Char) (vres : List Char)
    (hvt : vc :: vres ∈ valueTypeKeywords) : isSeparatorChar vc = false := by
  have := keywords_head_not_sep (vc :: vres) hvt
  simpa using this

/-- The head of a value-type keyword is not an opening parenthesis. -/
theorem keyword_head_paren_ne (vc : Char) (vres : List Char)
    (hvt : vc :: vres ∈ valueTypeKeywords) : vc ≠ '(' := by
  have := keywords_head_ne_paren (vc :: vres) hvt
  simpa using this

/-- Backward direction of C8 (amended): every string of the code grammar is
accepted by the parser. -/
theorem codeGrammar_parse_ok (s : List Char) (hg : CodeGrammar s) :
    (parseRecordAddress s).isOk = true := by
  obtain ⟨nm, w, pv, rest, rfl, hnm, hnmc, hw, hwc, hpv, hpvc, hrest⟩ := hg
  obtain ⟨n0, nt, rfl⟩ := List.exists_cons_of_ne_nil hnm
  obtain ⟨wc, wt, rfl⟩ := List.exists_cons_of_ne_nil hw
  obtain ⟨pc, pt, rfl⟩ := List.exists_cons_of_ne_nil hpv
  have hrest_head : ∀ c, rest.head? = some c → isSeparatorChar c = true := by
    rcases hrest with hre | ⟨w2, vt, hre, hw2, hw2c, hvt⟩ |
        ⟨w2, op, hre, hw2, hw2c, hop⟩ |
        ⟨w2, vt, w3, op, hre, hw2, hw2c, hvt, hw3, hw3c, hop⟩ <;>
      subst hre
    · intro c hc
      cases hc
    all_goals
      obtain ⟨w2c, w2t, rfl⟩ := List.exists_cons_of_ne_nil hw2
      intro c hc
      rw [List.cons_append] at hc
      injection hc with hc
      exact hc ▸ hw2c w2c (List.mem_cons_self _ _)
  have hsplit1 := takeWhile_of_append isNameChar (n0 :: nt)
    ((wc :: wt) ++ ((pc :: pt) ++ rest)) hnmc (by
      intro c hc
      rw [List.cons_append] at hc
      injection hc with hc
      exact hc ▸ sep_not_name wc (hwc wc (List.mem_cons_self _ _)))
  have hsplit2 := takeWhile_of_append isSeparatorChar (wc :: wt)
    ((pc :: pt) ++ rest) hwc (by
      intro c hc
      rw [List.cons_append] at hc
      injection hc with hc
      exact hc ▸ hpvc pc (List.mem_cons_self _ _))
  have hsplit3 := takeWhile_of_append (fun c => !isSeparatorChar c)
    (pc :: pt) rest (by
      intro c hc
      simp [hpvc c hc]) (by
      intro c hc
      simp [hrest_head c hc])
  rcases hrest with hre | ⟨w2, vt, hre, hw2, hw2c, hvt⟩ |
      ⟨w2, op, hre, hw2, hw2c, hop⟩ |
      ⟨w2, vt, w3, op, hre, hw2, hw2c, hvt, hw3, hw3c, hop⟩ <;> subst hre
  · -- rest = []
    simp only [parseRecordAddress]
    rw [hsplit1.1, hsplit1.2, hsplit2.1, hsplit2.2, hsplit3.1, hsplit3.2]
    rfl
  · -- rest = w2 ++ vt
    obtain ⟨w2c, w2t, rfl⟩ := List.exists_cons_of_ne_nil hw2
    obtain ⟨vc, vres, rfl⟩ := List.exists_cons_of_ne_nil
      (keywords_ne_nil vt hvt)
    have hsplitv := takeWhile_of_append isSeparatorChar (w2c :: w2t)
      (vc :: vres) hw2c (by
        intro c hc
        injection hc with hc
        exact hc ▸ keyword_head_sep_false vc vres hvt)
    have hvt_run : ∀ pos, parseValueType pos (vc :: vres) =
        .ok (vc :: vres, pos + (vc :: vres).length, []) := by
      intro pos
      have := parseValueType_of_keyword pos (vc :: vres) [] hvt
      simpa using this
    simp only [parseRecordAddress]
    rw [hsplit1.1, hsplit1.2, hsplit2.1, hsplit2.2, hsplit3.1, hsplit3.2,
      hsplitv.1, hsplitv.2]
    simp only []
    rw [if_neg (keyword_head_paren_ne vc vres hvt), hvt_run]
    rfl
  · -- rest = w2 ++ op
    obtain ⟨w2c, w2t, rfl⟩ := List.exists_cons_of_ne_nil hw2
    obtain (rfl | rfl) := codeOptionList_cases op hop
    · have hsplitv := takeWhile_of_append isSeparatorChar (w2c :: w2t)
        ('(' :: ')' :: []) hw2c (by
          intro c hc
          injection hc with hc
          subst hc
          rfl)
      simp only [parseRecordAddress]
      rw [hsplit1.1, hsplit1.2, hsplit2.1, hsplit2.2, hsplit3.1, hsplit3.2,
        hsplitv.1, hsplitv.2]
      rfl
    · have hsplitv := takeWhile_of_append isSeparatorChar (w2c :: w2t)
        ('(' :: (nobidirectionalChars ++ [')'])) hw2c (by
          intro c hc
          injection hc with hc
          subst hc
          rfl)
      simp only [parseRecordAddress]
      rw [hsplit1.1, hsplit1.2, hsplit2.1, hsplit2.2, hsplit3.1, hsplit3.2,
        hsplitv.1, hsplitv.2]
      rfl
  · -- rest = w2 ++ vt ++ w3 ++ op
    obtain ⟨w2c, w2t, rfl⟩ := List.exists_cons_of_ne_nil hw2
    obtain ⟨vc, vres, rfl⟩ := List.exists_cons_of_ne_nil
      (keywords_ne_nil vt hvt)
    obtain ⟨w3c, w3t, rfl⟩ := List.exists_cons_of_ne_nil hw3
    have hophead : ∀ c, op.head? = some c → isSeparatorChar c = false := by
      obtain (rfl | rfl) := codeOptionList_cases op hop <;>
      · intro c hc
        injection hc with hc
        subst hc
        rfl
    have hsplitv := takeWhile_of_append isSeparatorChar (w2c :: w2t)
      ((vc :: vres) ++ ((w3c :: w3t) ++ op)) hw2c (by
        intro c hc
        rw [List.cons_append] at hc
        injection hc with hc
        exact hc ▸ keyword_head_sep_false vc vres hvt)
    have hsplitw3 := takeWhile_of_append isSeparatorChar (w3c :: w3t)
      op hw3c hophead
    simp only [List.cons_append] at hsplitw3
    have hvt_run : ∀ pos,
        parseValueType pos (vc :: (vres ++ (w3c :: (w3t ++ op)))) =
        .ok (vc :: vres, pos + (vc :: vres).length,
          w3c :: (w3t ++ op)) := by
      intro pos
      have := parseValueType_of_keyword pos (vc :: vres)
        ((w3c :: w3t) ++ op) hvt
      simpa only [List.cons_append] using this
    simp only [parseRecordAddress]
    rw [hsplit1.1, hsplit1.2, hsplit2.1, hsplit2.2, hsplit3.1, hsplit3.2,
      hsplitv.1, hsplitv.2]
    simp only [List.cons_append]
    rw [if_neg (keyword_head_paren_ne vc vres hvt), hvt_run]
    simp only []
    rw [hsplitw3.1, hsplitw3.2]
    obtain (rfl | rfl) := codeOptionList_cases op hop <;> rfl

/-- A list with `isEmpty = false` is not nil. -/
theorem ne_nil_of_isEmpty_eq_false (l : List α) (h : l.isEmpty = false) :
    l ≠ [] := by
  intro hx
  subst hx
  simp at h

/-- The head of `dropWhile p l` does not satisfy `p`. -/
theorem dropWhile_head_false (p : α → Bool) (l : List α) :
    ∀ c, (l.dropWhile p).head? = some c → p c = false := by
  induction l with
  | nil =>
    intro c hc
    cases hc
  | cons x xs ih =>
    intro c hc
    rw [List.dropWhile_cons] at hc
    by_cases hx : p x = true
    · rw [if_pos hx] at hc
      exact ih c hc
    · rw [if_neg hx] at hc
      injection hc with hc
      subst hc
      exact Bool.eq_false_iff.2 hx

/-- Elements of the `pvName` scan are non-separator characters. -/
theorem mem_takeWhile_not_sep (l : List Char) (c : Char)
    (hc : c ∈ l.takeWhile (fun c => !isSeparatorChar c)) :
    isSeparatorChar c = false := by
  have := List.mem_takeWhile_imp hc
  simpa using this

/-- Forward direction of C8 (amended): the parser either accepts a string of
the code grammar, or fails with a 1-based error position lying between 1 and
one past the end of the input. -/
theorem parse_total (s : List Char) :
    ((parseRecordAddress s).isOk = true ∧ CodeGrammar s) ∨
    (∃ e, parseRecordAddress s = .error e ∧ 1 ≤ e ∧ e ≤ s.length + 1) := by
  have hlen1 : (s.takeWhile isNameChar).length +
      (s.dropWhile isNameChar).length = s.length := by
    have := congrArg List.length
      (List.takeWhile_append_dropWhile isNameChar s)
    rw [List.length_append] at this
    exact this
  have hlen2 : ((s.dropWhile isNameChar).takeWhile isSeparatorChar).length +
      ((s.dropWhile isNameChar).dropWhile isSeparatorChar).length =
      (s.dropWhile isNameChar).length := by
    have := congrArg List.length (List.takeWhile_append_dropWhile
      isSeparatorChar (s.dropWhile isNameChar))
    rw [List.length_append] at this
    exact this
  have hlen3 : (((s.dropWhile isNameChar).dropWhile
        isSeparatorChar).takeWhile (fun c => !isSeparatorChar c)).length +
      (((s.dropWhile isNameChar).dropWhile isSeparatorChar).dropWhile
        (fun c => !isSeparatorChar c)).length =
      ((s.dropWhile isNameChar).dropWhile isSeparatorChar).length := by
    have := congrArg List.length (List.takeWhile_append_dropWhile
      (fun c => !isSeparatorChar c)
      ((s.dropWhile isNameChar).dropWhile isSeparatorChar))
    rw [List.length_append] at this
    exact this
  have hlen4 : ((((s.dropWhile isNameChar).dropWhile
        isSeparatorChar).dropWhile (fun c => !isSeparatorChar c)).takeWhile
        isSeparatorChar).length +
      ((((s.dropWhile isNameChar).dropWhile isSeparatorChar).dropWhile
        (fun c => !isSeparatorChar c)).dropWhile isSeparatorChar).length =
      (((s.dropWhile isNameChar).dropWhile isSeparatorChar).dropWhile
        (fun c => !isSeparatorChar c)).length := by
    have := congrArg List.length (List.takeWhile_append_dropWhile
      isSeparatorChar (((s.dropWhile isNameChar).dropWhile
        isSeparatorChar).dropWhile (fun c => !isSeparatorChar c)))
    rw [List.length_append] at this
    exact this
  cases h1 : (s.takeWhile isNameChar).isEmpty with
  | true =>
    refine Or.inr ⟨1, ?_, ?_, ?_⟩
    · simp [parseRecordAddress, h1]
    · omega
    · omega
  | false =>
  cases h2 : ((s.dropWhile isNameChar).takeWhile isSeparatorChar).isEmpty with
  | true =>
    refine Or.inr ⟨(s.takeWhile isNameChar).length + 1, ?_, ?_, ?_⟩
    · simp [parseRecordAddress, h1, h2]
    · omega
    · omega
  | false =>
  cases h3 : (((s.dropWhile isNameChar).dropWhile
      isSeparatorChar).takeWhile (fun c => !isSeparatorChar c)).isEmpty with
  | true =>
    refine Or.inr ⟨(s.takeWhile isNameChar).length +
      ((s.dropWhile isNameChar).takeWhile isSeparatorChar).length + 1,
      ?_, ?_, ?_⟩
    · simp [parseRecordAddress, h1, h2, h3]
    · omega
    · omega
  | false =>
  have hsdec : s = s.takeWhile isNameChar ++
      ((s.dropWhile isNameChar).takeWhile isSeparatorChar ++
        (((s.dropWhile isNameChar).dropWhile isSeparatorChar).takeWhile
            (fun c => !isSeparatorChar c) ++
          (((s.dropWhile isNameChar).dropWhile isSeparatorChar).dropWhile
            (fun c => !isSeparatorChar c)))) := by
    rw [List.takeWhile_append_dropWhile, List.takeWhile_append_dropWhile,
      List.takeWhile_append_dropWhile]
  have hgbase : ∀ rest,
      RestShape codeOptionList rest →
      (((s.dropWhile isNameChar).dropWhile isSeparatorChar).dropWhile
        (fun c => !isSeparatorChar c)) = rest → CodeGrammar s := by
    intro rest hshape hrest
    refine ⟨s.takeWhile isNameChar,
      (s.dropWhile isNameChar).takeWhile isSeparatorChar,
      ((s.dropWhile isNameChar).dropWhile isSeparatorChar).takeWhile
        (fun c => !isSeparatorChar c), rest, ?_, ?_, ?_, ?_, ?_, ?_, ?_,
      hshape⟩
    · rw [← hrest]
      exact hsdec
    · exact ne_nil_of_isEmpty_eq_false _ h1
    · intro c hc
      exact List.mem_takeWhile_imp hc
    · exact ne_nil_of_isEmpty_eq_false _ h2
    · intro c hc
      exact List.mem_takeWhile_imp hc
    · exact ne_nil_of_isEmpty_eq_false _ h3
    · intro c hc
      exact mem_takeWhile_not_sep _ c hc
  cases h4 : ((((s.dropWhile isNameChar).dropWhile
      isSeparatorChar).dropWhile (fun c => !isSeparatorChar c))).isEmpty with
  | true =>
    refine Or.inl ⟨?_, ?_⟩
    · simp only [parseRecordAddress, h1, h2, h3, h4, Bool.false_eq_true,
        if_false, if_true, ite_false, ite_true]
      rfl
    · exact hgbase _ (Or.inl rfl) (List.isEmpty_iff.1 h4)
  | false =>
  cases h5 : (((((s.dropWhile isNameChar).dropWhile
      isSeparatorChar).dropWhile (fun c => !isSeparatorChar c))).takeWhile
      isSeparatorChar).isEmpty with
  | true =>
    refine Or.inr ⟨(s.takeWhile isNameChar).length +
      ((s.dropWhile isNameChar).takeWhile isSeparatorChar).length +
      (((s.dropWhile isNameChar).dropWhile isSeparatorChar).takeWhile
        (fun c => !isSeparatorChar c)).length + 1, ?_, ?_, ?_⟩
    · simp [parseRecordAddress, h1, h2, h3, h4, h5]
    · omega
    · omega
  | false =>
  cases hr4 : ((((s.dropWhile isNameChar).dropWhile
      isSeparatorChar).dropWhile (fun c => !isSeparatorChar c))).dropWhile
      isSeparatorChar with
  | nil =>
    refine Or.inr ⟨(s.takeWhile isNameChar).length +
      ((s.dropWhile isNameChar).takeWhile isSeparatorChar).length +
      (((s.dropWhile isNameChar).dropWhile isSeparatorChar).takeWhile
        (fun c => !isSeparatorChar c)).length +
      (((((s.dropWhile isNameChar).dropWhile isSeparatorChar).dropWhile
        (fun c => !isSeparatorChar c))).takeWhile isSeparatorChar).length +
      1, ?_, ?_, ?_⟩
    · simp [parseRecordAddress, h1, h2, h3, h4, h5, hr4]
    · omega
    · rw [hr4] at hlen4
      simp at hlen4
      omega
  | cons c r4t =>
  have hr3dec : (((s.dropWhile isNameChar).dropWhile
      isSeparatorChar).dropWhile (fun c => !isSeparatorChar c)) =
      ((((s.dropWhile isNameChar).dropWhile isSeparatorChar).dropWhile
        (fun c => !isSeparatorChar c)).takeWhile isSeparatorChar) ++
      (c :: r4t) := by
    rw [← hr4]
    rw [List.takeWhile_append_dropWhile]
  rw [hr4] at hlen4
  by_cases h6 : c = '('
  · subst h6
    cases hopt : parseOptions ((s.takeWhile isNameChar).length +
        ((s.dropWhile isNameChar).takeWhile isSeparatorChar).length +
        (((s.dropWhile isNameChar).dropWhile isSeparatorChar).takeWhile
          (fun c => !isSeparatorChar c)).length +
        (((((s.dropWhile isNameChar).dropWhile isSeparatorChar).dropWhile
          (fun c => !isSeparatorChar c))).takeWhile isSeparatorChar).length)
        ('(' :: r4t) with
    | error e' =>
      refine Or.inr ⟨e', ?_, ?_, ?_⟩
      · simp [parseRecordAddress, h1, h2, h3, h4, h5, hr4, hopt]
      · have hb := parseOptions_error_bound _ _ _ hopt
        omega
      · have hb := parseOptions_error_bound _ _ _ hopt
        simp only [List.length_cons] at hlen4 hb
        omega
    | ok t =>
      obtain ⟨nb, p5, r5⟩ := t
      cases h7 : r5.isEmpty with
      | true =>
        refine Or.inl ⟨?_, ?_⟩
        · simp only [parseRecordAddress, h1, h2, h3, h4, h5, hr4, hopt,
            h7, Bool.false_eq_true, if_false, if_true, ite_false, ite_true]
          rfl
        · have hr5 : r5 = [] := List.isEmpty_iff.1 h7
          subst hr5
          rcases parseOptions_ok_shape _ _ _ _ _ hopt with
            ⟨hnb, hto, hp5⟩ | ⟨hnb, hto, hp5⟩
          · refine hgbase _ (Or.inr (Or.inr (Or.inl ⟨_, '(' :: r4t,
              hr3dec, ne_nil_of_isEmpty_eq_false _ h5,
              (fun x hx => List.mem_takeWhile_imp hx), ?_⟩))) rfl
            rw [hto]
            rfl
          · refine hgbase _ (Or.inr (Or.inr (Or.inl ⟨_, '(' :: r4t,
              hr3dec, ne_nil_of_isEmpty_eq_false _ h5,
              (fun x hx => List.mem_takeWhile_imp hx), ?_⟩))) rfl
            rw [hto]
            rfl
      | false =>
        refine Or.inr ⟨p5 + 1, ?_, ?_, ?_⟩
        · simp [parseRecordAddress, h1, h2, h3, h4, h5, hr4, hopt, h7]
        · omega
        · rcases parseOptions_ok_shape _ _ _ _ _ hopt with
            ⟨hnb, hto, hp5⟩ | ⟨hnb, hto, hp5⟩ <;>
          · have hlto := congrArg List.length hto
            simp only [List.length_cons, List.length_append] at hlto hlen4
            omega
  · cases hvt : parseValueType ((s.takeWhile isNameChar).length +
        ((s.dropWhile isNameChar).takeWhile isSeparatorChar).length +
        (((s.dropWhile isNameChar).dropWhile isSeparatorChar).takeWhile
          (fun c => !isSeparatorChar c)).length +
        (((((s.dropWhile isNameChar).dropWhile isSeparatorChar).dropWhile
          (fun c => !isSeparatorChar c))).takeWhile isSeparatorChar).length)
        (c :: r4t) with
    | error e' =>
      refine Or.inr ⟨e', ?_, ?_, ?_⟩
      · simp [parseRecordAddress, h1, h2, h3, h4, h5, hr4, h6, hvt]
      · have hb := parseValueType_error _ _ _ hvt
        omega
      · have hb := parseValueType_error _ _ _ hvt
        simp only [List.length_cons] at hlen4
        omega
    | ok t =>
      obtain ⟨vt, p5, r5⟩ := t
      obtain ⟨hvtmem, heq, hp5⟩ := parseValueType_ok _ _ _ _ _ hvt
      have hlenr4 : (c :: r4t).length = vt.length + r5.length := by
        rw [heq, List.length_append]
      cases h7 : r5.isEmpty with
      | true =>
        refine Or.inl ⟨?_, ?_⟩
        · simp only [parseRecordAddress, h1, h2, h3, h4, h5, hr4, h6, hvt,
            h7, Bool.false_eq_true, if_false, if_true, ite_false, ite_true]
          rfl
        · have hr5 : r5 = [] := List.isEmpty_iff.1 h7
          subst hr5
          refine hgbase _ (Or.inr (Or.inl ⟨_, vt, ?_,
            ne_nil_of_isEmpty_eq_false _ h5,
            (fun x hx => List.mem_takeWhile_imp hx), hvtmem⟩)) rfl
          exact hr3dec.trans (by rw [heq, List.append_nil])
      | false =>
        have hlen5 : (r5.takeWhile isSeparatorChar).length +
            (r5.dropWhile isSeparatorChar).length = r5.length := by
          have := congrArg List.length
            (List.takeWhile_append_dropWhile isSeparatorChar r5)
          rw [List.length_append] at this
          exact this
        cases h8 : (r5.takeWhile isSeparatorChar).isEmpty with
        | true =>
          refine Or.inr ⟨p5 + 1, ?_, ?_, ?_⟩
          · simp [parseRecordAddress, h1, h2, h3, h4, h5, hr4, h6, hvt,
              h7, h8]
          · omega
          · simp only [List.length_cons] at hlen4 hlenr4
            omega
        | false =>
          cases hopt2 : parseOptions (p5 +
              (r5.takeWhile isSeparatorChar).length)
              (r5.dropWhile isSeparatorChar) with
          | error e' =>
            refine Or.inr ⟨e', ?_, ?_, ?_⟩
            · simp [parseRecordAddress, h1, h2, h3, h4, h5, hr4, h6, hvt,
                h7, h8, hopt2]
            · have hb := parseOptions_error_bound _ _ _ hopt2
              omega
            · have hb := parseOptions_error_bound _ _ _ hopt2
              simp only [List.length_cons] at hlen4 hlenr4
              omega
          | ok t2 =>
            obtain ⟨nb, p7, r7⟩ := t2
            cases h9 : r7.isEmpty with
            | true =>
              refine Or.inl ⟨?_, ?_⟩
              · simp only [parseRecordAddress, h1, h2, h3, h4, h5, hr4, h6,
                  hvt, h7, h8, hopt2, h9, Bool.false_eq_true, if_false,
                  if_true, ite_false, ite_true]
                rfl
              · have hr7 : r7 = [] := List.isEmpty_iff.1 h9
                subst hr7
                have hoptlist : codeOptionList
                    (r5.dropWhile isSeparatorChar) = true := by
                  rcases parseOptions_ok_shape _ _ _ _ _ hopt2 with
                    ⟨hnb, hto, hp7⟩ | ⟨hnb, hto, hp7⟩ <;> rw [hto] <;> rfl
                refine hgbase _ (Or.inr (Or.inr (Or.inr ⟨_, vt,
                  r5.takeWhile isSeparatorChar,
                  r5.dropWhile isSeparatorChar, ?_,
                  ne_nil_of_isEmpty_eq_false _ h5,
                  (fun x hx => List.mem_takeWhile_imp hx), hvtmem,
                  ne_nil_of_isEmpty_eq_false _ h8,
                  (fun x hx => List.mem_takeWhile_imp hx),
                  hoptlist⟩))) rfl
                exact hr3dec.trans
                  (by rw [heq, List.takeWhile_append_dropWhile])
            | false =>
              refine Or.inr ⟨p7 + 1, ?_, ?_, ?_⟩
              · simp [parseRecordAddress, h1, h2, h3, h4, h5, hr4, h6, hvt,
                  h7, h8, hopt2, h9]
              · rcases parseOptions_ok_shape _ _ _ _ _ hopt2 with
                  ⟨hnb, hto, hp7⟩ | ⟨hnb, hto, hp7⟩ <;> omega
              · rcases parseOptions_ok_shape _ _ _ _ _ hopt2 with
                  ⟨hnb, hto, hp7⟩ | ⟨hnb, hto, hp7⟩ <;>
                · have hlto := congrArg List.length hto
                  simp only [List.length_cons, List.length_append]
                    at hlto hlen4 hlenr4
                  omega

/-- C8 counterexample: the string "a b (nobidirectional,nobidirectional)"
belongs to the grammar claimed in the specification (whose option list is
"(" option ("," option)* ")"), but the parser rejects it: Parser::options
accepts at most one option and no commas, failing here at character 21 (the
comma).  Hence the parser does not accept exactly the claimed grammar. -/
theorem recordAddress_grammar_counterexample :
    ClaimGrammar "a b (nobidirectional,nobidirectional)".toList ∧
    parseRecordAddress "a b (nobidirectional,nobidirectional)".toList =
      .error 21 := by
  constructor
  · exact ⟨"a".toList, " ".toList, "b".toList,
      " (nobidirectional,nobidirectional)".toList, by decide, by decide,
      by decide, by decide, by decide, by decide, by decide,
      Or.inr (Or.inr (Or.inl ⟨" ".toList,
        "(nobidirectional,nobidirectional)".toList, by decide, by decide,
        by decide, by decide⟩))⟩
  · rfl

/-- C8 (amended): the record-address parser accepts exactly the strings of
the grammar  name WS pv (WS valueType)? (WS "(" option? ")")?  with
option := nobidirectional - the option list may be empty and comma-separated
lists are not accepted (unknown options fail) - and every failure reports a
1-based character position pointing into the input (between 1 and
length + 1). -/
theorem recordAddress_parser_accepts_code_grammar (s : List Char) :
    ((parseRecordAddress s).isOk = true ↔ CodeGrammar s) ∧
    (∀ e, parseRecordAddress s = .error e → 1 ≤ e ∧ e ≤ s.length + 1) := by
  constructor
  · constructor
    · intro hok
      rcases parse_total s with ⟨_, hg⟩ | ⟨e, he, _⟩
      · exact hg
      · rw [he] at hok
        exact Bool.noConfusion (show false = true from hok)
    · exact codeGrammar_parse_ok s
  · intro e he
    rcases parse_total s with ⟨hok, _⟩ | ⟨e', he', hb1, hb2⟩
    · rw [he] at hok
      exact Bool.noConfusion (show false = true from hok)
    · rw [he] at he'
      injection he' with h
      exact ⟨h ▸ hb1, h ▸ hb2⟩

/-- Witness for C8 at concrete inputs: a grammar string the parser accepts
and a malformed string whose reported position is within bounds. -/
theorem recordAddress_parser_accepts_code_grammar_witness :
    (parseRecordAddress "app pv (nobidirectional)".toList).isOk = true ∧
    (1 ≤ 1 ∧ 1 ≤ "!".toList.length + 1) :=
  ⟨(recordAddress_parser_accepts_code_grammar
      "app pv (nobidirectional)".toList).1.mpr
    ⟨"app".toList, " ".toList, "pv".toList, " (nobidirectional)".toList,
      by decide, by decide, by decide, by decide, by decide, by decide,
      by decide,
      Or.inr (Or.inr (Or.inl ⟨" ".toList, "(nobidirectional)".toList,
        by decide, by decide, by decide, by decide⟩))⟩,
   (recordAddress_parser_accepts_code_grammar "!".toList).2 1 rfl⟩
